import Mathlib

/-!
Verification development for the Shrdlite course-project planner.

The definitions below are a shallow embedding of the planner core:

* `src/Graph.ts` — the generic A* search engine (`aStarSearch`,
  `QueueElement`, `SearchResult`);
* the Planner module (`src/unnamed/part_003`, first document) — the state
  type `PlannerNode`, the successor relation `PlannerGraph.outgoingEdges`,
  the goal test `goal`, the heuristic `heuristics`, and the narration
  helper `getDescription`.

Modelling conventions:

* JavaScript numbers used as stack/arm indices are `Nat`; wherever the
  source can produce a negative number (`indexOf` returning `-1`,
  differences of indices, `length - 1` on an empty array) the embedding
  computes in `Int`.
* A JavaScript variable that may hold `null`/`undefined` is an
  `Option String`; strict equality `x === y` between a possibly-`null`
  string and a possibly-`undefined` string is `jsEq` (note that
  `null === undefined` is `false` under `===`).
* The object catalog `{ [s:string]: ObjectDefinition }` is a total
  function `String → ObjectDefinition`; the planner only looks up
  entities that exist in the world.
* The wall clock read once per search-loop iteration
  (`new Date().getTime() - startTime`) is an explicit argument
  `clock : Nat → Nat` giving the elapsed milliseconds at each iteration,
  and the unbounded `while` loop takes explicit fuel.
* The process-wide `goalCount` diagnostic counter has no observable
  effect and is not modelled.
* The source identifiers `stacks`, `from` and `to` are reserved tokens in
  this Lean environment, so the corresponding fields are spelled
  `stacks'`, `from'` and `to'` (and `sts` is used for stack-list
  parameters).
-/

namespace Shrdlite

/-- Catalog entry for one entity: `{form, size, color}` (from `World.ts`,
used as `ObjectDefinition` throughout the planner). -/
structure ObjectDefinition where
  form : String
  size : String
  color : String
deriving DecidableEq

/-- One relational literal of a DNF goal formula
(`Interpreter.Literal`). -/
structure Literal where
  polarity : Bool
  relation : String
  args : List String
deriving DecidableEq

/-- A conjunction of literals (one disjunct of the DNF formula). -/
abbrev Conjunction := List Literal

/-- `Interpreter.DNFFormula`: a disjunction of conjunctions. -/
abbrev DNFFormula := List Conjunction

/-- A column of entity ids, bottom to top (`Stack` in `World.ts`). -/
abbrev Stack := List String

/-- The planner search state (`PlannerNode` in the Planner module):
stacks, held entity, arm column, plus the action label that produced the
node and the optional narration string. -/
structure PlannerNode where
  stacks' : List Stack
  holding : Option String
  arm : Nat
  command : Option String := none
  description : Option String := none
deriving DecidableEq

/-- JavaScript strict equality `a === b` where `a` is a string-or-`null`
variable and `b` is a string-or-`undefined` variable: true only when both
are the same string (`null === undefined` is false). -/
abbrev jsEq (a : Option String) (b : Option String) : Prop :=
  b ≠ none ∧ a = b

/-- The search of `getStackIndex` (Planner module): index of the first
stack containing `entity`, or `none`.  `getStackIndex` without a default
argument returns this directly (JS `undefined` when absent). -/
def findColumn (sts : List Stack) (entity : String) : Option Nat :=
  sts.findIdx? (fun s => s.contains entity)

/-- `getStackIndex(stacks, entity, _default)` with a default (as invoked
by `heuristics` with `n.arm`); a `none` entity models looking up JS
`undefined`, which is found in no stack. -/
def getStackIndex (sts : List Stack) (entity : Option String) (dflt : Nat) : Nat :=
  match entity with
  | none => dflt
  | some e => (findColumn sts e).getD dflt

/-- JavaScript `array.indexOf(e)`: first index of `e`, or `-1`; looking
up `undefined` (`none`) in a string array yields `-1`. -/
def jsIndexOf (l : List String) (e : Option String) : Int :=
  match e with
  | none => -1
  | some x => if l.contains x then (l.indexOf x : Int) else -1

/-- `pos === -1 ? 0 : stack.length - pos - 1`: number of entities above
position `pos` (treating "not found" as `0`). -/
def numAbove (stack : Stack) (pos : Int) : Int :=
  if pos = -1 then 0 else (stack.length : Int) - pos - 1

/-- Per-literal check performed by the inner loop of `goal` (Planner
module).  The loop sets `conditionFulfilled = false` exactly when this
returns `false`; `continue` after a failed null-check matches the `none`
branches.  The source also computes `secondType = objects[second].form`
but never uses it, so the catalog argument is unused here. -/
def checkLit (objects : String → ObjectDefinition) (n : PlannerNode) (cond : Literal) : Bool :=
  if cond.relation = "holding" then
    match cond.args[0]? with
    | some x => decide (n.holding = some x)
    | none => false
  else
    match cond.args[0]? with
    | none => false
    | some x =>
      match findColumn n.stacks' x with
      | none => false
      | some fi =>
        let fpos := jsIndexOf (n.stacks'.getD fi []) (some x)
        if cond.args[1]? ≠ some "floor" then
          match cond.args[1]? with
          | none => false
          | some y =>
            match findColumn n.stacks' y with
            | none => false
            | some si =>
              let spos := jsIndexOf (n.stacks'.getD si []) (some y)
              if cond.relation = "leftof" then decide (fi < si)
              else if cond.relation = "rightof" then decide (si < fi)
              else if cond.relation = "beside" then decide (|(fi : Int) - (si : Int)| = 1)
              else if cond.relation = "inside" ∨ cond.relation = "ontop" then
                decide (fpos - spos = 1 ∧ fi = si)
              else if cond.relation = "above" then decide (spos < fpos ∧ fi = si)
              else if cond.relation = "under" then decide (fpos < spos ∧ fi = si)
              else true
        else
          decide (¬(cond.relation = "ontop" ∧ fpos ≠ 0))

/-- `goal(interpretations, objects, n)` (Planner module): true iff some
interpretation has every condition fulfilled; the two early-exit `for`
loops are `any`/`all`. -/
def goal (interpretations : DNFFormula) (objects : String → ObjectDefinition)
    (n : PlannerNode) : Bool :=
  interpretations.any (fun conj => conj.all (fun cond => checkLit objects n cond))

/-- Contribution of one condition to `_heuristics` in `heuristics`
(Planner module).  Each `_heuristics += e` adds a value depending only on
the condition and the node, so the loop body is this function. -/
def litHeuristic (n : PlannerNode) (cond : Literal) : Int :=
  let first0 := cond.args[0]?
  let fi0 := getStackIndex n.stacks' first0 n.arm
  let fpos0 := jsIndexOf (n.stacks'.getD fi0 []) first0
  let nA0 := numAbove (n.stacks'.getD fi0 []) fpos0
  if cond.relation = "holding" ∧ ¬ jsEq n.holding first0 then
    |(fi0 : Int) - (n.arm : Int)| + nA0 * 4 + (if n.holding.isSome then 2 else 1)
  else
    let swapped := cond.relation = "rightof" ∨ cond.relation = "under"
    let first := if swapped then cond.args[1]? else cond.args[0]?
    let second := if swapped then cond.args[0]? else cond.args[1]?
    let fi := getStackIndex n.stacks' first n.arm
    let fpos := jsIndexOf (n.stacks'.getD fi []) first
    let nA1 := numAbove (n.stacks'.getD fi []) fpos
    let si := getStackIndex n.stacks' second n.arm
    let spos := jsIndexOf (n.stacks'.getD si []) second
    let nA2 := numAbove (n.stacks'.getD si []) spos
    let stackDiff : Int := |(fi : Int) - (si : Int)|
    let holdingOne := fpos = -1 ∨ spos = -1
    if (cond.relation = "leftof" ∨ cond.relation = "rightof") ∧ ¬(fi < si ∧ ¬ holdingOne) then
      if ¬ holdingOne then
        if si = 0 ∧ (fi : Int) = (n.stacks'.length : Int) - 1 then
          min |(fi : Int) - (n.arm : Int)| |(si : Int) - (n.arm : Int)|
            + |(fi : Int) - (si : Int)| * 2 + (nA1 + nA2) * 4 + 2
        else if si = 0 then
          |(si : Int) - (n.arm : Int)| + nA2 * 4 + 1 + |(fi : Int) - (si : Int)| + 2
        else if (fi : Int) = (n.stacks'.length : Int) - 1 then
          |(fi : Int) - (n.arm : Int)| + nA1 * 4 + 1 + |(fi : Int) - (si : Int)| + 2
        else
          min (|(fi : Int) - (n.arm : Int)| + nA1 * 4) (|(si : Int) - (n.arm : Int)| + nA2 * 4)
            + 1 + |(fi : Int) - (si : Int)| + 2
      else
        if (jsEq n.holding first ∧ n.arm < si) ∨ (jsEq n.holding second ∧ fi < n.arm) then 1
        else
          (if jsEq n.holding first then (n.arm : Int) - (si : Int) + 2
           else (fi : Int) - (n.arm : Int) + 2)
          + (if jsEq n.holding first ∧ si = 0 then nA2 * 4 + 3
             else if jsEq n.holding second ∧ (fi : Int) = (n.stacks'.length : Int) - 1 then
               nA1 * 4 + 3
             else 0)
    else if cond.relation = "beside" ∧ ¬(stackDiff = 1 ∧ ¬ holdingOne) then
      if ¬ holdingOne then
        min (|(fi : Int) - (n.arm : Int)| + nA1 * 4) (|(si : Int) - (n.arm : Int)| + nA2 * 4)
          + 1 + |(fi : Int) - (si : Int)|
      else
        if jsEq n.holding first then |(si : Int) - (n.arm : Int)| else |(fi : Int) - (n.arm : Int)|
    else if (cond.relation = "inside" ∨ cond.relation = "ontop") ∧
        ¬(stackDiff = 0 ∧ fpos = spos + 1 ∧ ¬ holdingOne) then
      if ¬ jsEq n.holding first then
        |(fi : Int) - (n.arm : Int)| + nA1 * 4 + 1 + |(fi : Int) - (si : Int)| + nA2 * 4 + 1
      else
        |(si : Int) - (n.arm : Int)| + nA2 * 4 + 1
    else if (cond.relation = "above" ∨ cond.relation = "under") ∧
        ¬(stackDiff = 0 ∧ spos < fpos ∧ ¬ holdingOne) then
      if ¬ jsEq n.holding first then
        |(fi : Int) - (n.arm : Int)| + nA1 * 4 + 1 + |(fi : Int) - (si : Int)| + 1
      else
        |(si : Int) - (n.arm : Int)| + 1
    else 0

/-- `_heuristics` for one interpretation: the `forEach` accumulation of
per-condition contributions, starting from `0`. -/
def conjHeuristic (n : PlannerNode) (conj : Conjunction) : Int :=
  conj.foldl (fun acc cond => acc + litHeuristic n cond) 0

/-- `heuristics(interpretations, n)` (Planner module): one value is
pushed per interpretation and `Math.min.apply` takes the least;
`Math.min` of an empty array is `Infinity`, modelled as `none`. -/
def heuristics (interpretations : DNFFormula) (n : PlannerNode) : Option Int :=
  (interpretations.map (conjHeuristic n)).min?

/-- `mapNumberToText` (Planner module): `0 ↦ "first"`, `1 ↦ "second"`,
`2 ↦ "third"`, `n ↦ (n+1) ++ "th"` otherwise. -/
def mapNumberToText (num : Nat) : String :=
  if num > 2 then toString (num + 1) ++ "th"
  else (["first", "second", "third"].getD num "")

/-- JS `l.splice(l.indexOf(e), 1)`: removes the first occurrence of `e`;
when `e` is absent (or `undefined`), `indexOf` is `-1` and `splice(-1,1)`
removes the last element. -/
def jsSpliceOne (l : List String) (e : Option String) : List String :=
  match e with
  | some x => if l.contains x then l.erase x else l.dropLast
  | none => l.dropLast

/-- JS `l.splice(l.indexOf(e))`: removes everything from the first
occurrence of `e` on; when `e` is absent, `splice(-1)` removes only the
last element. -/
def jsSpliceFrom (l : List String) (e : String) : List String :=
  if l.contains e then l.take (l.indexOf e) else l.dropLast

/-- `getDescription(node, objects, entity, action)` (Planner module):
builds the narration string for a pick/drop step (or a "where" answer).
JS truthiness of `entity` (a string or `undefined`) is modelled by the
`Option`; entity ids are non-empty strings, so the extra JS falsiness of
`""` does not arise.  The `node.stacks[getStackIndex(..)]` lookup in the
non-action branch would crash in JS when the entity is unlocated; the
embedding uses `[]` there (that branch is only reached for located
entities). -/
def getDescription (node : PlannerNode) (objects : String → ObjectDefinition)
    (entity : Option String) (action : Option String) : String :=
  let result0 := if action = some "p" then "Picking up "
                 else if action = some "d" then "Putting it " else ""
  match entity with
  | none => result0 ++ "on the floor" ++ (if action.isSome then "." else "")
  | some e =>
    let fe := objects e
    let r1 := result0 ++
      (if action ≠ some "p" then (if fe.form = "box" then "inside " else "on ") else "")
    let existing :=
      if action = some "p" ∨ action = some "d" then
        jsSpliceOne (node.stacks'.flatten ++
          (match node.holding with | some h => [h] | none => [])) (some e)
      else
        jsSpliceOne (match findColumn node.stacks' e with
                     | some i => node.stacks'.getD i []
                     | none => []) (some e)
    let numSameForm := existing.countP (fun x => (objects x).form == fe.form)
    let numSameFormColor := existing.countP
      (fun x => (objects x).form == fe.form && (objects x).color == fe.color)
    let numSameFormSize := existing.countP
      (fun x => (objects x).form == fe.form && (objects x).size == fe.size)
    let numSameFormColorSize := existing.countP
      (fun x => (objects x).form == fe.form && (objects x).color == fe.color &&
        (objects x).size == fe.size)
    let r2 :=
      if numSameForm = 0 then "the " ++ fe.form
      else if numSameFormColor = 0 then "the " ++ fe.color ++ " " ++ fe.form
      else if numSameFormSize = 0 then "the " ++ fe.size ++ " " ++ fe.form
      else if numSameFormColorSize = 0 then
        "the " ++ fe.size ++ " " ++ fe.color ++ " " ++ fe.form
      else if action.isSome then "a " ++ fe.size ++ " " ++ fe.color ++ " " ++ fe.form
      else
        let ex2 := jsSpliceFrom (match findColumn node.stacks' e with
                                 | some i => node.stacks'.getD i []
                                 | none => []) e
        let cnt := ex2.countP
          (fun x => (objects x).form == fe.form && (objects x).color == fe.color &&
            (objects x).size == fe.size)
        "the " ++ mapNumberToText cnt ++ " " ++ fe.size ++ " " ++ fe.color ++ " " ++ fe.form
    r1 ++ r2 ++ (if action.isSome then "." else "")

/-- An `Edge` of `Graph.ts`, specialised to `PlannerNode`. -/
structure Edge where
  from' : PlannerNode
  to' : PlannerNode
  cost : Nat
deriving DecidableEq

/-- The memory optimisation at the top of `outgoingEdges`: a command is
skipped when it exactly reverses the command that produced the node
(`l`↔`r`, `p`↔`d`). -/
def reverseCancels (prev : Option String) (cmd : String) : Prop :=
  (prev = some "l" ∧ cmd = "r") ∨ (prev = some "r" ∧ cmd = "l") ∨
  (prev = some "p" ∧ cmd = "d") ∨ (prev = some "d" ∧ cmd = "p")

instance (prev : Option String) (cmd : String) : Decidable (reverseCancels prev cmd) := by
  unfold reverseCancels
  exact inferInstance

/-- The six support-legality disjuncts guarding the `d` branch of
`outgoingEdges` (the `holding === null` disjunct is handled separately).
`stacks[arm][0] ? … : null` tests JS truthiness of the bottom entity, so
`hasTop` also requires it to be a non-empty string. -/
def dropBlocked (objects : String → ObjectDefinition) (stack : Stack) (held : String) : Prop :=
  let holdForm := (objects held).form
  let holdSize := (objects held).size
  let hasTop := stack.getD 0 "" ≠ ""
  let top := stack.getLast?.getD ""
  let topForm : Option String := if hasTop then some (objects top).form else none
  let topSize : Option String := if hasTop then some (objects top).size else none
  (topSize = some "small" ∧ holdSize = "large") ∨
  (topForm.getD "" ≠ "" ∧ topForm ≠ some "box" ∧ holdForm = "ball") ∨
  (topForm = some "ball") ∨
  (topForm = some "box" ∧ (holdForm = "pyramid" ∨ holdForm = "plank" ∨ holdForm = "box") ∧
    topSize = some holdSize) ∨
  (topSize = some "small" ∧ (topForm = some "brick" ∨ topForm = some "pyramid") ∧
    holdForm = "box") ∨
  (topForm = some "pyramid" ∧ holdForm = "box" ∧ some holdSize = topSize)

instance (objects : String → ObjectDefinition) (stack : Stack) (held : String) :
    Decidable (dropBlocked objects stack held) := by
  unfold dropBlocked
  exact inferInstance

/-- One iteration of the `['l','r','p','d'].forEach` body of
`PlannerGraph.outgoingEdges`: `none` when the command yields no edge. -/
def stepEdge (objects : String → ObjectDefinition) (node : PlannerNode) (cmd : String) :
    Option Edge :=
  if reverseCancels node.command cmd then none
  else if cmd = "l" then
    if node.arm = 0 then none
    else some { from' := node,
                to' := { stacks' := node.stacks', holding := node.holding,
                         arm := node.arm - 1, command := some "l", description := none },
                cost := 1 }
  else if cmd = "r" then
    if (node.stacks'.length : Int) - 1 ≤ (node.arm : Int) then none
    else some { from' := node,
                to' := { stacks' := node.stacks', holding := node.holding,
                         arm := node.arm + 1, command := some "r", description := none },
                cost := 1 }
  else if cmd = "p" then
    match node.holding with
    | some _ => none
    | none =>
      let stack := node.stacks'.getD node.arm []
      if stack.isEmpty then none
      else
        some { from' := node,
               to' := { stacks' := node.stacks'.set node.arm stack.dropLast,
                        holding := stack.getLast?, arm := node.arm, command := some "p",
                        description := some (getDescription node objects stack.getLast?
                          (some "p")) },
               cost := 1 }
  else if cmd = "d" then
    match node.holding with
    | none => none
    | some held =>
      let stack := node.stacks'.getD node.arm []
      if dropBlocked objects stack held then none
      else
        some { from' := node,
               to' := { stacks' := node.stacks'.set node.arm (stack ++ [held]),
                        holding := none, arm := node.arm, command := some "d",
                        description := some (getDescription node objects stack.getLast?
                          (some "d")) },
               cost := 1 }
  else none

/-- `PlannerGraph.outgoingEdges(node)`: the `forEach`-with-`push` over
the four commands, in order. -/
def outgoingEdges (objects : String → ObjectDefinition) (node : PlannerNode) : List Edge :=
  (["l", "r", "p", "d"] : List String).filterMap (stepEdge objects node)

/-- `QueueElement` of `Graph.ts`: a search node with its parent chain,
accumulated cost `g` and priority `f`. -/
inductive QueueElement where
  | mk (parent : Option QueueElement) (node : PlannerNode) (g : Nat) (f : Int)

/-- The wrapped planner state of a queue element. -/
def QueueElement.node : QueueElement → PlannerNode
  | .mk _ nd _ _ => nd

/-- The accumulated cost of a queue element. -/
def QueueElement.g : QueueElement → Nat
  | .mk _ _ g _ => g

/-- The priority of a queue element. -/
def QueueElement.f : QueueElement → Int
  | .mk _ _ _ f => f

/-- The `QueueElement` constructor of `Graph.ts`: stores `f = g + h`. -/
def QueueElement.make (parent : Option QueueElement) (node : PlannerNode) (g : Nat)
    (h : Int) : QueueElement :=
  .mk parent node g ((g : Int) + h)

/-- The backtracking loop of `aStarSearch` after the goal is reached:
the node chain from the goal node back to the root (before `reverse`). -/
def QueueElement.backtrack : QueueElement → List PlannerNode
  | .mk none nd _ _ => [nd]
  | .mk (some p) nd _ _ => nd :: p.backtrack

/-- `SearchResult` of `Graph.ts`, specialised to `PlannerNode`. -/
structure SearchResult where
  path : List PlannerNode
  cost : Nat
deriving DecidableEq

/-- Result of running `aStarSearch`: the returned `SearchResult`, one of
the two thrown errors, or fuel exhaustion of the embedding. -/
inductive SearchOutcome where
  | success (result : SearchResult)
  | timeoutFailure
  | exhaustedFailure
  | outOfFuel
deriving DecidableEq

/-- The data serialised by `PlannerNode.toString`
(`JSON.stringify({stacks, holding, arm})`), which is the key used by
`collections.Set` for membership in the visited set: the `command` and
`description` fields do not participate. -/
abbrev StateKey := List Stack × Option String × Nat

/-- The visited-set key of a node (its `toString` image). -/
def stateKey (n : PlannerNode) : StateKey := (n.stacks', n.holding, n.arm)

/-- One `dequeue` of the priority queue ordered by ascending `f`: removes
an element of minimal `f` (the first such, modelling one valid behaviour
of the binary heap of `typescript-collections`). -/
def dequeueMin : QueueElement → List QueueElement → QueueElement × List QueueElement
  | q, [] => (q, [])
  | q, q' :: rest =>
    let m := dequeueMin q' rest
    if q.f ≤ m.1.f then (q, q' :: rest) else (m.1, q :: m.2)

/-- The `while (!frontier.isEmpty())` loop of `aStarSearch` (`Graph.ts`),
with explicit fuel.  Per iteration: if the frontier is empty the search
throws "Could not find a path"; the wall clock is read once and compared
against the budget (`throw` on timeout); a minimal-`f` element is
dequeued; already-visited states are skipped; a goal node is backtracked
and returned with cost `g`; otherwise the state is added to the visited
set and the non-visited successors are pushed.  The second component is
the final contents of the visited set (in insertion order). -/
def aStarLoop (objects : String → ObjectDefinition) (goalFn : PlannerNode → Bool)
    (hFn : PlannerNode → Int) (timeout : Nat) (clock : Nat → Nat) :
    Nat → List QueueElement → List StateKey → Nat → SearchOutcome × List StateKey
  | 0, _, visited, _ => (.outOfFuel, visited)
  | fuel + 1, frontier, visited, tick =>
    match frontier with
    | [] => (.exhaustedFailure, visited)
    | q :: rest =>
      if timeout * 1000 < clock tick then (.timeoutFailure, visited)
      else
        let dq := dequeueMin q rest
        let current := dq.1
        if visited.contains (stateKey current.node) then
          aStarLoop objects goalFn hFn timeout clock fuel dq.2 visited (tick + 1)
        else if goalFn current.node then
          (.success { path := current.backtrack.reverse, cost := current.g }, visited)
        else
          let visited' := visited ++ [stateKey current.node]
          let children := (outgoingEdges objects current.node).filterMap fun e =>
            if visited'.contains (stateKey e.to') then none
            else some (QueueElement.make (some current) e.to' (current.g + e.cost) (hFn e.to'))
          aStarLoop objects goalFn hFn timeout clock fuel (dq.2 ++ children) visited' (tick + 1)

/-- `aStarSearch(graph, start, goal, heuristics, timeout)` (`Graph.ts`),
specialised to the planner graph: the frontier starts with a root
element wrapping `start` (`g = 0`, `h = heuristics(start)`) and the
visited set starts empty. -/
def aStarSearch (objects : String → ObjectDefinition) (goalFn : PlannerNode → Bool)
    (hFn : PlannerNode → Int) (timeout : Nat) (clock : Nat → Nat) (fuel : Nat)
    (start : PlannerNode) : SearchOutcome × List StateKey :=
  aStarLoop objects goalFn hFn timeout clock fuel
    [QueueElement.make none start 0 (hFn start)] [] 0

/-! Specification-side definitions used to state the claims. -/

/-- The multiset of entity ids of a state: the contents of every stack
plus the held entity, if any. -/
def nodeIds (n : PlannerNode) : Multiset String :=
  (n.stacks'.map (fun s => (s : Multiset String))).sum +
    (match n.holding with | some x => ({x} : Multiset String) | none => 0)

/-- The eight goal relations of the system. -/
def relationNames : List String :=
  ["holding", "leftof", "rightof", "beside", "ontop", "inside", "above", "under"]

/-- Entity `x` is located in some stack of `n`. -/
def located (n : PlannerNode) (x : String) : Prop := findColumn n.stacks' x ≠ none

/-- Entity `x` is located in some stack of `n` or currently held. -/
def locOrHeld (n : PlannerNode) (x : String) : Prop :=
  located n x ∨ n.holding = some x

/-- Satisfaction of one literal as the specification of the goal test
describes it: `holding(x)` holds iff the arm holds `x`; the spatial
relations require the named entities to be located in stacks (an entity
currently held satisfies none of them); `ontop(x, "floor")` holds iff
`x` occupies position 0 of its column; a literal with second argument
`"floor"` and any other relation is not required to hold. -/
def LitSatSpec (n : PlannerNode) (lit : Literal) : Prop :=
  if lit.relation = "holding" then
    match lit.args[0]? with
    | some x => n.holding = some x
    | none => False
  else
    match lit.args[0]? with
    | none => False
    | some x =>
      match findColumn n.stacks' x with
      | none => False
      | some ci =>
        if lit.args[1]? = some "floor" then
          (lit.relation = "ontop" → (n.stacks'.getD ci []).indexOf x = 0)
        else
          match lit.args[1]? with
          | none => False
          | some y =>
            match findColumn n.stacks' y with
            | none => False
            | some cj =>
              if lit.relation = "leftof" then ci < cj
              else if lit.relation = "rightof" then cj < ci
              else if lit.relation = "beside" then ci = cj + 1 ∨ cj = ci + 1
              else if lit.relation = "inside" ∨ lit.relation = "ontop" then
                ci = cj ∧
                  (n.stacks'.getD ci []).indexOf x = (n.stacks'.getD cj []).indexOf y + 1
              else if lit.relation = "above" then
                ci = cj ∧ (n.stacks'.getD cj []).indexOf y < (n.stacks'.getD ci []).indexOf x
              else if lit.relation = "under" then
                ci = cj ∧ (n.stacks'.getD ci []).indexOf x < (n.stacks'.getD cj []).indexOf y
              else True

/-- A small concrete catalog used by the concrete instances below:
`a`, `x`, `y` are small balls, `b` and `c` are large boxes, anything
else a large brick. -/
def sampleObjects : String → ObjectDefinition := fun e =>
  if e = "a" then ⟨"ball", "small", "white"⟩
  else if e = "b" then ⟨"box", "large", "red"⟩
  else if e = "c" then ⟨"box", "large", "blue"⟩
  else if e = "x" then ⟨"ball", "small", "black"⟩
  else if e = "y" then ⟨"ball", "small", "green"⟩
  else ⟨"brick", "large", "gray"⟩

/-! General lemmas about the embedding. -/

theorem contains_iff_mem {α : Type} [BEq α] [LawfulBEq α] {l : List α} {x : α} :
    l.contains x = true ↔ x ∈ l := by
  simp [List.contains]

theorem findColumn_spec {sts : List Stack} {x : String} {i : Nat}
    (h : findColumn sts x = some i) : i < sts.length ∧ x ∈ sts.getD i [] := by
  unfold findColumn at h
  rw [List.findIdx?_eq_some_iff_getElem] at h
  obtain ⟨hlt, hp, _⟩ := h
  refine ⟨hlt, ?_⟩
  have hg : sts.getD i [] = sts[i] := by
    simp [List.getD_eq_getElem?_getD, List.getElem?_eq_getElem hlt]
  rw [hg]
  exact contains_iff_mem.mp hp

theorem findColumn_none {sts : List Stack} {x : String}
    (h : findColumn sts x = none) : ∀ s ∈ sts, x ∉ s := by
  unfold findColumn at h
  rw [List.findIdx?_eq_none_iff] at h
  intro s hs hx
  have := h s hs
  rw [contains_iff_mem.2 hx] at this
  exact Bool.true_eq_false.mp this

theorem getStackIndex_of_some {sts : List Stack} {x : String} {c dflt : Nat}
    (h : findColumn sts x = some c) : getStackIndex sts (some x) dflt = c := by
  show (findColumn sts x).getD dflt = c
  rw [h]
  rfl

theorem getStackIndex_of_none {sts : List Stack} {x : String} {dflt : Nat}
    (h : findColumn sts x = none) : getStackIndex sts (some x) dflt = dflt := by
  show (findColumn sts x).getD dflt = dflt
  rw [h]
  rfl

theorem jsIndexOf_mem_eq {l : List String} {x : String} (h : x ∈ l) :
    jsIndexOf l (some x) = (l.indexOf x : Int) := by
  show (if l.contains x = true then (l.indexOf x : Int) else -1) = (l.indexOf x : Int)
  rw [if_pos (contains_iff_mem.2 h)]

theorem jsIndexOf_nonneg_of_mem {l : List String} {x : String} (h : x ∈ l) :
    0 ≤ jsIndexOf l (some x) := by
  rw [jsIndexOf_mem_eq h]
  exact Int.natCast_nonneg _

theorem jsIndexOf_lt_length {l : List String} {x : String} (h : x ∈ l) :
    jsIndexOf l (some x) < (l.length : Int) := by
  rw [jsIndexOf_mem_eq h]
  exact_mod_cast List.indexOf_lt_length.2 h

theorem jsIndexOf_eq_neg_one {l : List String} {e : Option String}
    (h : ∀ x, e = some x → x ∉ l) : jsIndexOf l e = -1 := by
  cases e with
  | none => rfl
  | some x =>
    show (if l.contains x = true then (l.indexOf x : Int) else -1) = -1
    rw [if_neg]
    intro hc
    exact h x rfl (contains_iff_mem.mp hc)

theorem getD_mem_or {sts : List Stack} {i : Nat} :
    sts.getD i [] ∈ sts ∨ sts.getD i [] = ([] : Stack) := by
  by_cases h : i < sts.length
  · left
    have : sts.getD i [] = sts[i] := by
      simp [List.getD_eq_getElem?_getD, List.getElem?_eq_getElem h]
    rw [this]
    exact List.getElem_mem h
  · right
    simp [List.getD_eq_getElem?_getD, List.getElem?_eq_none (Nat.le_of_not_lt h)]

theorem numAbove_nonneg {l : List String} {e : Option String} :
    0 ≤ numAbove l (jsIndexOf l e) := by
  unfold numAbove
  split
  · exact le_refl 0
  · rename_i hne
    cases e with
    | none => exact absurd rfl hne
    | some x =>
      by_cases hm : x ∈ l
      · have h1 := jsIndexOf_lt_length hm
        have h2 := jsIndexOf_nonneg_of_mem hm
        omega
      · exact absurd (jsIndexOf_eq_neg_one (fun z hz => by cases hz; exact hm)) hne

theorem mem_outgoingEdges {objects : String → ObjectDefinition} {n : PlannerNode} {e : Edge} :
    e ∈ outgoingEdges objects n ↔
      ∃ cmd, cmd ∈ (["l", "r", "p", "d"] : List String) ∧ stepEdge objects n cmd = some e := by
  simp [outgoingEdges, List.mem_filterMap]

theorem sum_map_set (l : List (List String)) (i : Nat) (x : List String)
    (hi : i < l.length) :
    ((l.set i x).map (fun s => (s : Multiset String))).sum + (l.getD i [] : Multiset String)
      = (l.map (fun s => (s : Multiset String))).sum + (x : Multiset String) := by
  induction l generalizing i with
  | nil => simp at hi
  | cons hd tl ih =>
    cases i with
    | zero => simp [List.set]; abel
    | succ j =>
      simp only [List.set, List.map_cons, List.sum_cons, List.getD_cons_succ]
      have hj : j < tl.length := by simpa using hi
      calc ((hd : Multiset String) + ((tl.set j x).map (fun s => (s : Multiset String))).sum)
            + (tl.getD j [] : Multiset String)
          = (hd : Multiset String)
            + (((tl.set j x).map (fun s => (s : Multiset String))).sum
              + (tl.getD j [] : Multiset String)) := by rw [add_assoc]
        _ = (hd : Multiset String)
            + ((tl.map (fun s => (s : Multiset String))).sum + (x : Multiset String)) := by
              rw [ih j hj]
        _ = (hd : Multiset String) + (tl.map (fun s => (s : Multiset String))).sum
            + (x : Multiset String) := by rw [add_assoc]

theorem coe_dropLast_getLast (s : List String) (h : s ≠ []) :
    ((s.dropLast : List String) : Multiset String) + {s.getLast h} = (s : Multiset String) := by
  conv_rhs => rw [← List.dropLast_concat_getLast h]
  rw [← Multiset.coe_singleton, Multiset.coe_add]

/-! Reduction lemmas for `stepEdge` at each of the four commands. -/

theorem stepEdge_l (objects : String → ObjectDefinition) (n : PlannerNode) :
    stepEdge objects n "l" =
      if n.command = some "r" then none
      else if n.arm = 0 then none
      else some { from' := n,
                  to' := { stacks' := n.stacks', holding := n.holding, arm := n.arm - 1,
                           command := some "l", description := none },
                  cost := 1 } := by
  simp [stepEdge, reverseCancels]

theorem stepEdge_r (objects : String → ObjectDefinition) (n : PlannerNode) :
    stepEdge objects n "r" =
      if n.command = some "l" then none
      else if (n.stacks'.length : Int) - 1 ≤ (n.arm : Int) then none
      else some { from' := n,
                  to' := { stacks' := n.stacks', holding := n.holding, arm := n.arm + 1,
                           command := some "r", description := none },
                  cost := 1 } := by
  simp [stepEdge, reverseCancels]

theorem stepEdge_p (objects : String → ObjectDefinition) (n : PlannerNode) :
    stepEdge objects n "p" =
      if n.command = some "d" then none
      else match n.holding with
      | some _ => none
      | none =>
        if (n.stacks'.getD n.arm []).isEmpty then none
        else
          some { from' := n,
                 to' := { stacks' := n.stacks'.set n.arm (n.stacks'.getD n.arm []).dropLast,
                          holding := (n.stacks'.getD n.arm []).getLast?, arm := n.arm,
                          command := some "p",
                          description := some (getDescription n objects
                            (n.stacks'.getD n.arm []).getLast? (some "p")) },
                 cost := 1 } := by
  simp [stepEdge, reverseCancels]

theorem stepEdge_d (objects : String → ObjectDefinition) (n : PlannerNode) :
    stepEdge objects n "d" =
      if n.command = some "p" then none
      else match n.holding with
      | none => none
      | some held =>
        if dropBlocked objects (n.stacks'.getD n.arm []) held then none
        else
          some { from' := n,
                 to' := { stacks' := n.stacks'.set n.arm (n.stacks'.getD n.arm [] ++ [held]),
                          holding := none, arm := n.arm, command := some "d",
                          description := some (getDescription n objects
                            (n.stacks'.getD n.arm []).getLast? (some "d")) },
                 cost := 1 } := by
  simp [stepEdge, reverseCancels]

/-- C1: every edge produced by `outgoingEdges` (move-left, move-right,
pick or drop) preserves the multiset of entity ids over all stacks plus
the holding slot: no entity is created, destroyed or duplicated.  The
arm is assumed to be over one of the stacks, as it is in every state the
planner constructs (the source would index out of bounds otherwise). -/
theorem C1_actions_preserve_entities (objects : String → ObjectDefinition)
    (n : PlannerNode) (e : Edge) (harm : n.arm < n.stacks'.length)
    (he : e ∈ outgoingEdges objects n) : nodeIds e.to' = nodeIds n := by
  rw [mem_outgoingEdges] at he
  obtain ⟨cmd, hcmd, hstep⟩ := he
  have hc : cmd = "l" ∨ cmd = "r" ∨ cmd = "p" ∨ cmd = "d" := by simpa using hcmd
  rcases hc with rfl | rfl | rfl | rfl
  · rw [stepEdge_l] at hstep
    split_ifs at hstep
    simp only [Option.some.injEq] at hstep
    subst hstep
    rfl
  · rw [stepEdge_r] at hstep
    split_ifs at hstep
    simp only [Option.some.injEq] at hstep
    subst hstep
    rfl
  · rw [stepEdge_p] at hstep
    by_cases h1 : n.command = some "d"
    · rw [if_pos h1] at hstep
      exact absurd hstep (by simp)
    · rw [if_neg h1] at hstep
      cases hh : n.holding with
      | some z => simp [hh] at hstep
      | none =>
      simp only [hh] at hstep
      split_ifs at hstep with hempty
      simp only [Option.some.injEq] at hstep
      subst hstep
      have hne : n.stacks'.getD n.arm [] ≠ [] := by
        simpa [List.isEmpty_iff] using hempty
      have hlast := List.getLast?_eq_getLast (n.stacks'.getD n.arm []) hne
      have key := sum_map_set n.stacks' n.arm (n.stacks'.getD n.arm []).dropLast harm
      have hsplit := coe_dropLast_getLast (n.stacks'.getD n.arm []) hne
      unfold nodeIds
      simp only [hh, hlast]
      have step1 :
          (((n.stacks'.set n.arm (n.stacks'.getD n.arm []).dropLast).map
              (fun s => (s : Multiset String))).sum
            + ({(n.stacks'.getD n.arm []).getLast hne} : Multiset String))
            + ((n.stacks'.getD n.arm []).dropLast : Multiset String)
          = ((n.stacks'.map (fun s => (s : Multiset String))).sum)
            + ((n.stacks'.getD n.arm []).dropLast : Multiset String) := by
        calc (((n.stacks'.set n.arm (n.stacks'.getD n.arm []).dropLast).map
                (fun s => (s : Multiset String))).sum
              + ({(n.stacks'.getD n.arm []).getLast hne} : Multiset String))
              + ((n.stacks'.getD n.arm []).dropLast : Multiset String)
            = ((n.stacks'.set n.arm (n.stacks'.getD n.arm []).dropLast).map
                (fun s => (s : Multiset String))).sum
              + (((n.stacks'.getD n.arm []).dropLast : Multiset String)
                + ({(n.stacks'.getD n.arm []).getLast hne} : Multiset String)) := by
              abel
          _ = ((n.stacks'.set n.arm (n.stacks'.getD n.arm []).dropLast).map
                (fun s => (s : Multiset String))).sum
              + ((n.stacks'.getD n.arm []) : Multiset String) := by rw [hsplit]
          _ = ((n.stacks'.map (fun s => (s : Multiset String))).sum)
              + ((n.stacks'.getD n.arm []).dropLast : Multiset String) := key
      have := add_right_cancel step1
      rw [this, add_zero]
  · rw [stepEdge_d] at hstep
    by_cases h1 : n.command = some "p"
    · rw [if_pos h1] at hstep
      exact absurd hstep (by simp)
    · rw [if_neg h1] at hstep
      cases hh : n.holding with
      | none => simp [hh] at hstep
      | some held =>
      simp only [hh] at hstep
      split_ifs at hstep with hblocked
      simp only [Option.some.injEq] at hstep
      subst hstep
      have key := sum_map_set n.stacks' n.arm (n.stacks'.getD n.arm [] ++ [held]) harm
      rw [← Multiset.coe_add, Multiset.coe_singleton] at key
      unfold nodeIds
      simp only [hh]
      have step1 :
          (((n.stacks'.set n.arm (n.stacks'.getD n.arm [] ++ [held])).map
              (fun s => (s : Multiset String))).sum)
            + ((n.stacks'.getD n.arm []) : Multiset String)
          = ((n.stacks'.map (fun s => (s : Multiset String))).sum
              + ({held} : Multiset String))
            + ((n.stacks'.getD n.arm []) : Multiset String) := by
        calc (((n.stacks'.set n.arm (n.stacks'.getD n.arm [] ++ [held])).map
                (fun s => (s : Multiset String))).sum)
              + ((n.stacks'.getD n.arm []) : Multiset String)
            = ((n.stacks'.map (fun s => (s : Multiset String))).sum)
              + (((n.stacks'.getD n.arm []) : Multiset String)
                + ({held} : Multiset String)) := key
          _ = ((n.stacks'.map (fun s => (s : Multiset String))).sum
                + ({held} : Multiset String))
              + ((n.stacks'.getD n.arm []) : Multiset String) := by abel
      have := add_right_cancel step1
      rw [this, add_zero]

/-- C1 witness: the pick edge out of the one-column state `[["a"]]`
preserves the entity multiset. -/
theorem C1_actions_preserve_entities_witness :
    (⟨⟨[["a"]], none, 0, none, none⟩,
      ⟨[[]], some "a", 0, some "p", some "Picking up the ball."⟩, 1⟩ : Edge)
        ∈ outgoingEdges sampleObjects ⟨[["a"]], none, 0, none, none⟩
    ∧ (⟨[["a"]], none, 0, none, none⟩ : PlannerNode).arm
        < (⟨[["a"]], none, 0, none, none⟩ : PlannerNode).stacks'.length
    ∧ nodeIds (⟨⟨[["a"]], none, 0, none, none⟩,
        ⟨[[]], some "a", 0, some "p", some "Picking up the ball."⟩, 1⟩ : Edge).to'
      = nodeIds ⟨[["a"]], none, 0, none, none⟩ :=
  ⟨by decide, by decide,
    C1_actions_preserve_entities sampleObjects _ _ (by decide) (by decide)⟩

/-- Unfolding of one iteration of the search loop on a non-empty
frontier. -/
theorem aStarLoop_succ_cons (objects : String → ObjectDefinition)
    (goalFn : PlannerNode → Bool) (hFn : PlannerNode → Int) (timeout : Nat)
    (clock : Nat → Nat) (k : Nat) (q : QueueElement) (rest : List QueueElement)
    (visited : List StateKey) (tick : Nat) :
    aStarLoop objects goalFn hFn timeout clock (k + 1) (q :: rest) visited tick
      = if timeout * 1000 < clock tick then (SearchOutcome.timeoutFailure, visited)
        else if visited.contains (stateKey (dequeueMin q rest).1.node) then
          aStarLoop objects goalFn hFn timeout clock k (dequeueMin q rest).2 visited (tick + 1)
        else if goalFn (dequeueMin q rest).1.node then
          (SearchOutcome.success
            { path := (dequeueMin q rest).1.backtrack.reverse,
              cost := (dequeueMin q rest).1.g }, visited)
        else
          aStarLoop objects goalFn hFn timeout clock k
            ((dequeueMin q rest).2 ++
              (outgoingEdges objects (dequeueMin q rest).1.node).filterMap (fun e =>
                if (visited ++ [stateKey (dequeueMin q rest).1.node]).contains
                    (stateKey e.to') then none
                else some (QueueElement.make (some (dequeueMin q rest).1) e.to'
                  ((dequeueMin q rest).1.g + e.cost) (hFn e.to'))))
            (visited ++ [stateKey (dequeueMin q rest).1.node]) (tick + 1) := rfl

/-- The search loop only ever adds a state key to the visited set after
checking that it is not already present, so the visited set never holds
duplicates. -/
theorem aStarLoop_visited_nodup (objects : String → ObjectDefinition)
    (goalFn : PlannerNode → Bool) (hFn : PlannerNode → Int) (timeout : Nat)
    (clock : Nat → Nat) :
    ∀ fuel frontier visited tick, visited.Nodup →
      ((aStarLoop objects goalFn hFn timeout clock fuel frontier visited tick).2).Nodup := by
  intro fuel
  induction fuel with
  | zero =>
    intro frontier visited tick h
    simpa [aStarLoop] using h
  | succ k ih =>
    intro frontier visited tick h
    cases frontier with
    | nil => simpa [aStarLoop] using h
    | cons q rest =>
      rw [aStarLoop_succ_cons]
      split_ifs with ht hvis hgoal
      · exact h
      · exact ih _ _ _ h
      · exact h
      · refine ih _ _ _ ?_
        rw [List.nodup_append]
        refine ⟨h, List.nodup_singleton _, ?_⟩
        intro a ha hb
        have : a = stateKey (dequeueMin q rest).1.node := by simpa using hb
        subst this
        exact hvis (contains_iff_mem.2 ha)

/-- C10: the closed set of the search identifies nodes by the
`toString` key `(stacks, holding, arm)` only — the `command` and
`description` fields carried on a node do not enter the key — and in any
run of the search no state key is ever expanded (added to the visited
set) more than once. -/
theorem C10_closed_set_structural_equality :
    (∀ (sts : List Stack) (h : Option String) (a : Nat) (c₁ d₁ c₂ d₂ : Option String),
        stateKey ⟨sts, h, a, c₁, d₁⟩ = stateKey ⟨sts, h, a, c₂, d₂⟩)
    ∧ ∀ (objects : String → ObjectDefinition) (goalFn : PlannerNode → Bool)
        (hFn : PlannerNode → Int) (timeout : Nat) (clock : Nat → Nat) (fuel : Nat)
        (start : PlannerNode),
        ((aStarSearch objects goalFn hFn timeout clock fuel start).2).Nodup := by
  constructor
  · intro sts h a c₁ d₁ c₂ d₂
    rfl
  · intro objects goalFn hFn timeout clock fuel start
    exact aStarLoop_visited_nodup objects goalFn hFn timeout clock fuel _ _ _ List.nodup_nil

/-- C5 (counterexample): on the 2-column instance
(`stacks = [["a"], []]`, `a` small and ball-shaped, arm at 0, nothing
held) with goal `ontop(a, floor)`, the search returns the empty plan of
cost 0 — not the claimed plan pick, right, drop of cost 3 — because the
goal formula is already satisfied at the start state (`a` occupies
position 0 of its column). -/
theorem C5_counterexample_empty_plan :
    (aStarSearch sampleObjects
        (fun n => goal [[⟨true, "ontop", ["a", "floor"]⟩]] sampleObjects n)
        (fun n => (heuristics [[⟨true, "ontop", ["a", "floor"]⟩]] n).getD 0)
        100 (fun _ => 0) 5 ⟨[["a"], []], none, 0, none, none⟩).1
      = SearchOutcome.success ⟨[⟨[["a"], []], none, 0, none, none⟩], 0⟩
    ∧ (0 : Nat) ≠ 3 :=
  ⟨rfl, by decide⟩

/-- C5 (amended): on that instance the goal test already holds at the
start state, so the search returns immediately with the one-node path
`[start]` and cost 0 (the planner then emits the empty action plan). -/
theorem C5_amended_already_satisfied :
    goal [[⟨true, "ontop", ["a", "floor"]⟩]] sampleObjects
        ⟨[["a"], []], none, 0, none, none⟩ = true
    ∧ aStarSearch sampleObjects
        (fun n => goal [[⟨true, "ontop", ["a", "floor"]⟩]] sampleObjects n)
        (fun n => (heuristics [[⟨true, "ontop", ["a", "floor"]⟩]] n).getD 0)
        100 (fun _ => 0) 5 ⟨[["a"], []], none, 0, none, none⟩
      = (SearchOutcome.success ⟨[⟨[["a"], []], none, 0, none, none⟩], 0⟩, []) :=
  ⟨rfl, rfl⟩

/-- C6 (counterexample): with time budget 0 but every elapsed-clock
reading equal to 0 ms (the first pops happen within the same millisecond
as the start, so `elapsed > 0·1000` never fires), the engine does not
raise the timeout: on the one-column world `[["a"]]` with goal
`holding(a)` — false at the start state, so one expansion is needed — it
returns the plan `[pick]` of cost 1. -/
theorem C6_counterexample_zero_budget_plan :
    goal [[⟨true, "holding", ["a"]⟩]] sampleObjects ⟨[["a"]], none, 0, none, none⟩ = false
    ∧ (aStarSearch sampleObjects
        (fun n => goal [[⟨true, "holding", ["a"]⟩]] sampleObjects n)
        (fun n => (heuristics [[⟨true, "holding", ["a"]⟩]] n).getD 0)
        0 (fun _ => 0) 10 ⟨[["a"]], none, 0, none, none⟩).1
      = SearchOutcome.success
          ⟨[⟨[["a"]], none, 0, none, none⟩,
            ⟨[[]], some "a", 0, some "p", some "Picking up the ball."⟩], 1⟩ :=
  ⟨rfl, rfl⟩

/-- C6 (amended): the budget is compared against the elapsed wall clock
once per frontier pop, before the pop; with budget 0, as soon as the
elapsed reading of the first loop iteration is strictly positive the
engine raises the timeout failure and returns no plan — for any instance
whose goal predicate is false at the start state (indeed for any
instance at all). -/
theorem C6_amended_timeout_on_positive_clock (objects : String → ObjectDefinition)
    (goalFn : PlannerNode → Bool) (hFn : PlannerNode → Int) (clock : Nat → Nat)
    (fuel : Nat) (start : PlannerNode) (hclock : 0 < clock 0)
    (hgoal : goalFn start = false) :
    aStarSearch objects goalFn hFn 0 clock (fuel + 1) start
      = (SearchOutcome.timeoutFailure, []) := by
  unfold aStarSearch
  rw [aStarLoop_succ_cons]
  rw [if_pos (by simpa using hclock)]

/-- C6 witness: a concrete instance with a positive first clock reading
times out immediately under budget 0. -/
theorem C6_amended_timeout_witness :
    (0 : Nat) < 1
    ∧ goal [[⟨true, "holding", ["a"]⟩]] sampleObjects ⟨[["a"]], none, 0, none, none⟩ = false
    ∧ aStarSearch sampleObjects
        (fun n => goal [[⟨true, "holding", ["a"]⟩]] sampleObjects n)
        (fun n => (heuristics [[⟨true, "holding", ["a"]⟩]] n).getD 0)
        0 (fun _ => 1) (9 + 1) ⟨[["a"]], none, 0, none, none⟩
      = (SearchOutcome.timeoutFailure, []) :=
  ⟨by decide, rfl,
    C6_amended_timeout_on_positive_clock sampleObjects _ _ _ 9 _ (by decide) rfl⟩

theorem getD_set_self {l : List (List String)} {i : Nat} (x : List String)
    (h : i < l.length) : (l.set i x).getD i [] = x := by
  simp [List.getD_eq_getElem?_getD, List.getElem?_set_self h]

theorem set_getD_self {l : List (List String)} {i : Nat} (h : i < l.length) :
    l.set i (l.getD i []) = l := by
  apply List.ext_getElem?
  intro j
  by_cases hj : j = i
  · subst hj
    rw [List.getElem?_set_self h]
    simp [List.getD_eq_getElem?_getD, List.getElem?_eq_getElem h]
  · rw [List.getElem?_set_ne (fun hji => hj hji.symm)]

/-- A `d`-labelled successor exists exactly when the node was not itself
produced by a pick (reverse-action pruning), something is held, and the
six support rules allow the held entity on the current column. -/
theorem drop_edge_iff (objects : String → ObjectDefinition) (n : PlannerNode) :
    (∃ e ∈ outgoingEdges objects n, e.to'.command = some "d") ↔
      (n.command ≠ some "p" ∧ ∃ h, n.holding = some h ∧
        ¬ dropBlocked objects (n.stacks'.getD n.arm []) h) := by
  constructor
  · rintro ⟨e, he, hecmd⟩
    rw [mem_outgoingEdges] at he
    obtain ⟨cmd, hcmd, hstep⟩ := he
    have hc : cmd = "l" ∨ cmd = "r" ∨ cmd = "p" ∨ cmd = "d" := by simpa using hcmd
    rcases hc with rfl | rfl | rfl | rfl
    · rw [stepEdge_l] at hstep
      split_ifs at hstep
      simp only [Option.some.injEq] at hstep
      subst hstep
      simp at hecmd
    · rw [stepEdge_r] at hstep
      split_ifs at hstep
      simp only [Option.some.injEq] at hstep
      subst hstep
      simp at hecmd
    · rw [stepEdge_p] at hstep
      by_cases h1 : n.command = some "d"
      · rw [if_pos h1] at hstep
        exact absurd hstep (by simp)
      · rw [if_neg h1] at hstep
        cases hh : n.holding with
        | some z => simp [hh] at hstep
        | none =>
          simp only [hh] at hstep
          split_ifs at hstep
          simp only [Option.some.injEq] at hstep
          subst hstep
          simp at hecmd
    · rw [stepEdge_d] at hstep
      by_cases h1 : n.command = some "p"
      · rw [if_pos h1] at hstep
        exact absurd hstep (by simp)
      · rw [if_neg h1] at hstep
        refine ⟨h1, ?_⟩
        cases hh : n.holding with
        | none => simp [hh] at hstep
        | some held =>
          simp only [hh] at hstep
          split_ifs at hstep with hblocked
          exact ⟨held, rfl, hblocked⟩
  · rintro ⟨h1, held, hh, hnb⟩
    refine ⟨{ from' := n,
              to' := { stacks' := n.stacks'.set n.arm (n.stacks'.getD n.arm [] ++ [held]),
                       holding := none, arm := n.arm, command := some "d",
                       description := some (getDescription n objects
                         (n.stacks'.getD n.arm []).getLast? (some "d")) },
              cost := 1 }, ?_, rfl⟩
    rw [mem_outgoingEdges]
    refine ⟨"d", by simp, ?_⟩
    rw [stepEdge_d, if_neg h1]
    simp only [hh]
    rw [if_neg hnb]

/-- C2: a drop successor is produced iff something is held, no support
rule blocks it, and additionally (contrary to the claim as stated) the
node was not itself produced by a pick — the reverse action is pruned.
The box-on-same-size-box configuration never yields a drop edge, and a
drop onto an empty column yields an edge whenever something is held and
the node was not produced by a pick.  The arm is assumed over an
existing column, as in every reachable state. -/
theorem C2_drop_successor (objects : String → ObjectDefinition) (n : PlannerNode)
    (harm : n.arm < n.stacks'.length) :
    ((∃ e ∈ outgoingEdges objects n, e.to'.command = some "d") ↔
      (n.command ≠ some "p" ∧ ∃ h, n.holding = some h ∧
        ¬ dropBlocked objects (n.stacks'.getD n.arm []) h))
    ∧ (∀ h t, n.holding = some h → (objects h).form = "box" →
        (n.stacks'.getD n.arm []).getD 0 "" ≠ "" →
        (n.stacks'.getD n.arm []).getLast? = some t →
        (objects t).form = "box" → (objects t).size = (objects h).size →
        ¬ ∃ e ∈ outgoingEdges objects n, e.to'.command = some "d")
    ∧ ((n.stacks'.getD n.arm [] = []) → n.holding ≠ none → n.command ≠ some "p" →
        ∃ e ∈ outgoingEdges objects n, e.to'.command = some "d") := by
  refine ⟨drop_edge_iff objects n, ?_, ?_⟩
  · intro h t hh hform htop hlast htform htsize hex
    rw [drop_edge_iff] at hex
    obtain ⟨h1, h', hh', hnb⟩ := hex
    rw [hh] at hh'
    injection hh' with hh''
    subst hh''
    apply hnb
    have htop' : (n.stacks'.getD n.arm []).getLast?.getD "" = t := by rw [hlast]; rfl
    unfold dropBlocked
    simp only [htop', if_pos htop]
    refine Or.inr (Or.inr (Or.inr (Or.inl ⟨?_, ?_, ?_⟩)))
    · rw [htform]
    · exact Or.inr (Or.inr hform)
    · rw [htsize]
  · intro hempty hhold h1
    rw [drop_edge_iff]
    cases hh : n.holding with
    | none => exact absurd hh hhold
    | some h =>
      refine ⟨h1, h, rfl, ?_⟩
      unfold dropBlocked
      rw [hempty]
      simp

/-- C2 witness: a node holding a large box over a column whose top is a
large box, with arm over an existing column. -/
theorem C2_drop_successor_witness :
    (⟨[["b"]], some "c", 0, none, none⟩ : PlannerNode).arm
        < (⟨[["b"]], some "c", 0, none, none⟩ : PlannerNode).stacks'.length
    ∧ (((∃ e ∈ outgoingEdges sampleObjects (⟨[["b"]], some "c", 0, none, none⟩ : PlannerNode),
          e.to'.command = some "d") ↔
        ((⟨[["b"]], some "c", 0, none, none⟩ : PlannerNode).command ≠ some "p" ∧
          ∃ h, (⟨[["b"]], some "c", 0, none, none⟩ : PlannerNode).holding = some h ∧
            ¬ dropBlocked sampleObjects
              ((⟨[["b"]], some "c", 0, none, none⟩ : PlannerNode).stacks'.getD
                (⟨[["b"]], some "c", 0, none, none⟩ : PlannerNode).arm []) h))
      ∧ (∀ h t,
          (⟨[["b"]], some "c", 0, none, none⟩ : PlannerNode).holding = some h →
          (sampleObjects h).form = "box" →
          (((⟨[["b"]], some "c", 0, none, none⟩ : PlannerNode).stacks'.getD
            (⟨[["b"]], some "c", 0, none, none⟩ : PlannerNode).arm []).getD 0 "") ≠ "" →
          (((⟨[["b"]], some "c", 0, none, none⟩ : PlannerNode).stacks'.getD
            (⟨[["b"]], some "c", 0, none, none⟩ : PlannerNode).arm []).getLast?) = some t →
          (sampleObjects t).form = "box" → (sampleObjects t).size = (sampleObjects h).size →
          ¬ ∃ e ∈ outgoingEdges sampleObjects (⟨[["b"]], some "c", 0, none, none⟩ : PlannerNode),
              e.to'.command = some "d")
      ∧ (((⟨[["b"]], some "c", 0, none, none⟩ : PlannerNode).stacks'.getD
            (⟨[["b"]], some "c", 0, none, none⟩ : PlannerNode).arm [] = []) →
          (⟨[["b"]], some "c", 0, none, none⟩ : PlannerNode).holding ≠ none →
          (⟨[["b"]], some "c", 0, none, none⟩ : PlannerNode).command ≠ some "p" →
          ∃ e ∈ outgoingEdges sampleObjects (⟨[["b"]], some "c", 0, none, none⟩ : PlannerNode),
              e.to'.command = some "d")) :=
  ⟨by decide, C2_drop_successor sampleObjects ⟨[["b"]], some "c", 0, none, none⟩ (by decide)⟩

/-- C2 (counterexample to the claim as stated): a state holding a small
ball over an empty column — so a drop is support-legal — but reached by
a pick offers no drop edge at all: the pruning of the immediate reverse
action falsifies the unqualified "if and only if". -/
theorem C2_counterexample_drop_pruned :
    (⟨[[]], some "a", 0, some "p", none⟩ : PlannerNode).holding = some "a"
    ∧ ¬ dropBlocked sampleObjects
        ((⟨[[]], some "a", 0, some "p", none⟩ : PlannerNode).stacks'.getD 0 []) "a"
    ∧ ¬ ∃ e ∈ outgoingEdges sampleObjects (⟨[[]], some "a", 0, some "p", none⟩ : PlannerNode),
        e.to'.command = some "d" := by
  refine ⟨rfl, by decide, ?_⟩
  decide

/-- Every edge of `outgoingEdges` comes from one of the four commands,
and its target is labelled with that command. -/
theorem mem_outgoingEdges_command (objects : String → ObjectDefinition)
    (m : PlannerNode) (e : Edge) (he : e ∈ outgoingEdges objects m) :
    stepEdge objects m "l" = some e ∧ e.to'.command = some "l"
    ∨ stepEdge objects m "r" = some e ∧ e.to'.command = some "r"
    ∨ stepEdge objects m "p" = some e ∧ e.to'.command = some "p"
    ∨ stepEdge objects m "d" = some e ∧ e.to'.command = some "d" := by
  rw [mem_outgoingEdges] at he
  obtain ⟨cmd, hcmd, hstep⟩ := he
  have hc : cmd = "l" ∨ cmd = "r" ∨ cmd = "p" ∨ cmd = "d" := by simpa using hcmd
  rcases hc with rfl | rfl | rfl | rfl
  · refine Or.inl ⟨hstep, ?_⟩
    rw [stepEdge_l] at hstep
    split_ifs at hstep
    simp only [Option.some.injEq] at hstep
    subst hstep
    rfl
  · refine Or.inr (Or.inl ⟨hstep, ?_⟩)
    rw [stepEdge_r] at hstep
    split_ifs at hstep
    simp only [Option.some.injEq] at hstep
    subst hstep
    rfl
  · refine Or.inr (Or.inr (Or.inl ⟨hstep, ?_⟩))
    rw [stepEdge_p] at hstep
    by_cases h1 : m.command = some "d"
    · rw [if_pos h1] at hstep
      exact absurd hstep (by simp)
    · rw [if_neg h1] at hstep
      cases hh : m.holding with
      | some z => simp [hh] at hstep
      | none =>
        simp only [hh] at hstep
        split_ifs at hstep
        simp only [Option.some.injEq] at hstep
        subst hstep
        rfl
  · refine Or.inr (Or.inr (Or.inr ⟨hstep, ?_⟩))
    rw [stepEdge_d] at hstep
    by_cases h1 : m.command = some "p"
    · rw [if_pos h1] at hstep
      exact absurd hstep (by simp)
    · rw [if_neg h1] at hstep
      cases hh : m.holding with
      | none => simp [hh] at hstep
      | some held =>
        simp only [hh] at hstep
        split_ifs at hstep
        simp only [Option.some.injEq] at hstep
        subst hstep
        rfl

/-- C8 (amended): the move-left/move-right and pick/drop action pairs
are mutually inverse at cost 1 each on the searched key
`(stacks, holding, arm)`, but — contrary to the claim as stated — the
second action of either pair is never offered directly after the first,
because `outgoingEdges` prunes the exact reverse of the command that
produced a node.  Concretely: (a) a node with `arm > 0` not produced by
move-right has a move-left edge; (b) from any node carrying the
intermediate key whose command is not `"l"`, a move-right edge of cost 1
leads back to the original key; (c) a node produced by move-left offers
no move-right edge; (d) a node holding nothing, with a non-empty current
column and not produced by a drop, has a pick edge; (e) from any node
carrying the post-pick key whose command is not `"p"`, if putting the
picked entity back is support-legal, a drop edge of cost 1 leads back to
the original key; (f) a node produced by a pick offers no drop edge. -/
theorem C8_inverse_action_pairs (objects : String → ObjectDefinition) (n : PlannerNode) :
    (0 < n.arm → n.command ≠ some "r" →
      ∃ e ∈ outgoingEdges objects n, e.cost = 1 ∧
        e.to' = ⟨n.stacks', n.holding, n.arm - 1, some "l", none⟩)
    ∧ (0 < n.arm → n.arm < n.stacks'.length →
        ∀ c d, c ≠ some "l" →
          ∃ e ∈ outgoingEdges objects
              (⟨n.stacks', n.holding, n.arm - 1, c, d⟩ : PlannerNode),
            e.cost = 1 ∧ stateKey e.to' = stateKey n)
    ∧ (∀ m : PlannerNode, m.command = some "l" →
        ¬ ∃ e ∈ outgoingEdges objects m, e.to'.command = some "r")
    ∧ (n.holding = none → n.stacks'.getD n.arm [] ≠ [] → n.command ≠ some "d" →
        ∃ e ∈ outgoingEdges objects n, e.cost = 1 ∧
          e.to' = ⟨n.stacks'.set n.arm (n.stacks'.getD n.arm []).dropLast,
                   (n.stacks'.getD n.arm []).getLast?, n.arm, some "p",
                   some (getDescription n objects
                     (n.stacks'.getD n.arm []).getLast? (some "p"))⟩)
    ∧ (n.holding = none → n.arm < n.stacks'.length →
        ∀ x, (n.stacks'.getD n.arm []).getLast? = some x →
          ¬ dropBlocked objects (n.stacks'.getD n.arm []).dropLast x →
          ∀ c d, c ≠ some "p" →
            ∃ e ∈ outgoingEdges objects
                (⟨n.stacks'.set n.arm (n.stacks'.getD n.arm []).dropLast,
                  some x, n.arm, c, d⟩ : PlannerNode),
              e.cost = 1 ∧ stateKey e.to' = stateKey n)
    ∧ (∀ m : PlannerNode, m.command = some "p" →
        ¬ ∃ e ∈ outgoingEdges objects m, e.to'.command = some "d") := by
  refine ⟨?_, ?_, ?_, ?_, ?_, ?_⟩
  · intro h0 hcmd
    refine ⟨{ from' := n, to' := ⟨n.stacks', n.holding, n.arm - 1, some "l", none⟩,
              cost := 1 }, ?_, rfl, rfl⟩
    rw [mem_outgoingEdges]
    refine ⟨"l", by simp, ?_⟩
    rw [stepEdge_l, if_neg hcmd, if_neg (by omega)]
  · intro h0 hlen c d hc
    have hguard : ¬ ((((⟨n.stacks', n.holding, n.arm - 1, c, d⟩ :
        PlannerNode).stacks'.length : Int) - 1) ≤
          (((⟨n.stacks', n.holding, n.arm - 1, c, d⟩ : PlannerNode).arm : Int))) := by
      show ¬ ((n.stacks'.length : Int) - 1 ≤ ((n.arm - 1 : Nat) : Int))
      omega
    refine ⟨{ from' := ⟨n.stacks', n.holding, n.arm - 1, c, d⟩,
              to' := ⟨n.stacks', n.holding, n.arm - 1 + 1, some "r", none⟩,
              cost := 1 }, ?_, rfl, ?_⟩
    · rw [mem_outgoingEdges]
      refine ⟨"r", by simp, ?_⟩
      rw [stepEdge_r, if_neg hc, if_neg hguard]
    · show ((n.stacks', n.holding, n.arm - 1 + 1) : StateKey) = stateKey n
      unfold stateKey
      have : n.arm - 1 + 1 = n.arm := by omega
      rw [this]
  · rintro m hm ⟨e, he, hecmd⟩
    rcases mem_outgoingEdges_command objects m e he with
      ⟨_, hl⟩ | ⟨hstep, _⟩ | ⟨_, hp⟩ | ⟨_, hd⟩
    · rw [hl] at hecmd
      simp at hecmd
    · rw [stepEdge_r, if_pos hm] at hstep
      exact absurd hstep (by simp)
    · rw [hp] at hecmd
      simp at hecmd
    · rw [hd] at hecmd
      simp at hecmd
  · intro hhold hne hcmd
    refine ⟨{ from' := n,
              to' := ⟨n.stacks'.set n.arm (n.stacks'.getD n.arm []).dropLast,
                      (n.stacks'.getD n.arm []).getLast?, n.arm, some "p",
                      some (getDescription n objects
                        (n.stacks'.getD n.arm []).getLast? (some "p"))⟩,
              cost := 1 }, ?_, rfl, rfl⟩
    rw [mem_outgoingEdges]
    refine ⟨"p", by simp, ?_⟩
    rw [stepEdge_p, if_neg hcmd]
    simp only [hhold]
    rw [if_neg (by simpa [List.isEmpty_iff] using hne)]
  · intro hhold hlen x hx hnb c d hc
    have hne : n.stacks'.getD n.arm [] ≠ [] := by
      intro h
      rw [h] at hx
      simp at hx
    have hxval : x = (n.stacks'.getD n.arm []).getLast hne := by
      rw [List.getLast?_eq_getLast _ hne] at hx
      exact (Option.some.injEq _ _ ▸ hx.symm :)
    have hstack : ((n.stacks'.set n.arm (n.stacks'.getD n.arm []).dropLast).getD n.arm [])
        = (n.stacks'.getD n.arm []).dropLast := getD_set_self _ hlen
    have hmem : ∃ ed, stepEdge objects
        (⟨n.stacks'.set n.arm (n.stacks'.getD n.arm []).dropLast,
          some x, n.arm, c, d⟩ : PlannerNode) "d" = some ed ∧
        ed.cost = 1 ∧ stateKey ed.to' = stateKey n := by
      rw [stepEdge_d, if_neg hc]
      simp only [hstack]
      rw [if_neg hnb]
      refine ⟨_, rfl, rfl, ?_⟩
      show ((((n.stacks'.set n.arm (n.stacks'.getD n.arm []).dropLast)).set n.arm
          ((n.stacks'.getD n.arm []).dropLast ++ [x]), (none : Option String), n.arm) :
            StateKey) = stateKey n
      rw [List.set_set]
      have hback : (n.stacks'.getD n.arm []).dropLast ++ [x] = n.stacks'.getD n.arm [] := by
        rw [hxval]
        exact List.dropLast_concat_getLast hne
      rw [hback, set_getD_self hlen]
      unfold stateKey
      rw [hhold]
    obtain ⟨ed, hed, hcost, hkey⟩ := hmem
    refine ⟨ed, ?_, hcost, hkey⟩
    rw [mem_outgoingEdges]
    exact ⟨"d", by simp, hed⟩
  · rintro m hm ⟨e, he, hecmd⟩
    rcases mem_outgoingEdges_command objects m e he with
      ⟨_, hl⟩ | ⟨_, hr⟩ | ⟨_, hp⟩ | ⟨hstep, _⟩
    · rw [hl] at hecmd
      simp at hecmd
    · rw [hr] at hecmd
      simp at hecmd
    · rw [hp] at hecmd
      simp at hecmd
    · rw [stepEdge_d, if_pos hm] at hstep
      exact absurd hstep (by simp)

/-- C8 witness: in the two-column world `[["a"], []]` with the arm at
column 1, the theorem yields the move-left edge to
`⟨[["a"], []], none, 0⟩` labelled `"l"`, at cost 1. -/
theorem C8_inverse_action_pairs_witness :
    0 < (⟨[["a"], []], none, 1, none, none⟩ : PlannerNode).arm
    ∧ (⟨[["a"], []], none, 1, none, none⟩ : PlannerNode).command ≠ some "r"
    ∧ ∃ e ∈ outgoingEdges sampleObjects (⟨[["a"], []], none, 1, none, none⟩ : PlannerNode),
        e.cost = 1 ∧ e.to' = ⟨[["a"], []], none, 0, some "l", none⟩ :=
  ⟨by decide, by decide,
    (C8_inverse_action_pairs sampleObjects ⟨[["a"], []], none, 1, none, none⟩).1
      (by decide) (by decide)⟩

/-- C8 (counterexample to the claim as stated): moving left from
`⟨[[], []], none, 1⟩` yields the node `⟨[[], []], none, 0⟩` labelled
`"l"`, but that node offers no move-right edge — the exact reverse of
the action that produced it is pruned — so "applying move-left then
move-right" is not realizable as two consecutive edges. -/
theorem C8_counterexample_right_edge_pruned :
    (∃ e ∈ outgoingEdges sampleObjects (⟨[[], []], none, 1, none, none⟩ : PlannerNode),
        e.to' = ⟨[[], []], none, 0, some "l", none⟩ ∧ e.cost = 1)
    ∧ ¬ ∃ e ∈ outgoingEdges sampleObjects (⟨[[], []], none, 0, some "l", none⟩ : PlannerNode),
        e.to'.command = some "r" := by
  exact ⟨by decide, by decide⟩

/-- The per-literal check of the source goal test agrees with the
specification-side satisfaction predicate, for the eight relations. -/
theorem checkLit_iff_litSatSpec (objects : String → ObjectDefinition) (n : PlannerNode)
    (lit : Literal) (hrel : lit.relation ∈ relationNames) :
    checkLit objects n lit = true ↔ LitSatSpec n lit := by
  have hc : lit.relation = "holding" ∨ lit.relation = "leftof" ∨ lit.relation = "rightof" ∨
      lit.relation = "beside" ∨ lit.relation = "ontop" ∨ lit.relation = "inside" ∨
      lit.relation = "above" ∨ lit.relation = "under" := by
    simpa [relationNames] using hrel
  by_cases hh : lit.relation = "holding"
  · cases h0 : lit.args[0]? with
    | none => simp [checkLit, LitSatSpec, h0, hh]
    | some x => simp [checkLit, LitSatSpec, h0, hh]
  · have hc' : lit.relation = "leftof" ∨ lit.relation = "rightof" ∨
        lit.relation = "beside" ∨ lit.relation = "ontop" ∨ lit.relation = "inside" ∨
        lit.relation = "above" ∨ lit.relation = "under" := by tauto
    cases h0 : lit.args[0]? with
    | none => simp [checkLit, LitSatSpec, h0, hh]
    | some x =>
      cases hf : findColumn n.stacks' x with
      | none => simp [checkLit, LitSatSpec, h0, hf, hh]
      | some ci =>
        have hxm : x ∈ n.stacks'[ci]?.getD [] := by
          simpa using (findColumn_spec hf).2
        have hjx : jsIndexOf (n.stacks'[ci]?.getD []) (some x)
            = ((n.stacks'[ci]?.getD []).indexOf x : Int) := jsIndexOf_mem_eq hxm
        cases h1 : lit.args[1]? with
        | none => simp [checkLit, LitSatSpec, h0, h1, hf, hh]
        | some y =>
          by_cases hy : y = "floor"
          · subst hy
            by_cases hro : lit.relation = "ontop"
            · simp [checkLit, LitSatSpec, h0, h1, hf, hh, hro, hjx]
            · simp [checkLit, LitSatSpec, h0, h1, hf, hh, hro]
          · cases hg : findColumn n.stacks' y with
            | none =>
              rcases hc' with h | h | h | h | h | h | h <;>
                simp [checkLit, LitSatSpec, h0, h1, hf, hg, hy, h]
            | some cj =>
              have hym : y ∈ n.stacks'[cj]?.getD [] := by
                simpa using (findColumn_spec hg).2
              have hjy : jsIndexOf (n.stacks'[cj]?.getD []) (some y)
                  = ((n.stacks'[cj]?.getD []).indexOf y : Int) := jsIndexOf_mem_eq hym
              rcases hc' with h | h | h | h | h | h | h
              · simp [checkLit, LitSatSpec, h0, h1, hf, hg, hy, h]
              · simp [checkLit, LitSatSpec, h0, h1, hf, hg, hy, h]
              · simp only [checkLit, LitSatSpec, h0, h1, hf, hg, hy, h]
                simp [hy]
                rw [abs_eq (by norm_num : (0 : Int) ≤ 1)]
                omega
              · simp [checkLit, LitSatSpec, h0, h1, hf, hg, hy, h, hjx, hjy]
                omega
              · simp [checkLit, LitSatSpec, h0, h1, hf, hg, hy, h, hjx, hjy]
                omega
              · simp [checkLit, LitSatSpec, h0, h1, hf, hg, hy, h, hjx, hjy]
                omega
              · simp [checkLit, LitSatSpec, h0, h1, hf, hg, hy, h, hjx, hjy]
                omega

/-- C3: the goal test returns true iff some conjunction of the DNF
formula has all of its literals satisfied in the sense described by the
specification (`LitSatSpec`), provided every literal uses one of the
eight relations. -/
theorem C3_goal_iff_some_conjunction (interps : DNFFormula)
    (objects : String → ObjectDefinition) (n : PlannerNode)
    (hrel : ∀ conj ∈ interps, ∀ lit ∈ conj, lit.relation ∈ relationNames) :
    goal interps objects n = true ↔
      ∃ conj ∈ interps, ∀ lit ∈ conj, LitSatSpec n lit := by
  unfold goal
  rw [List.any_eq_true]
  constructor
  · rintro ⟨conj, hconj, hall⟩
    rw [List.all_eq_true] at hall
    exact ⟨conj, hconj, fun lit hl =>
      (checkLit_iff_litSatSpec objects n lit (hrel conj hconj lit hl)).1 (hall lit hl)⟩
  · rintro ⟨conj, hconj, hall⟩
    refine ⟨conj, hconj, ?_⟩
    rw [List.all_eq_true]
    exact fun lit hl =>
      (checkLit_iff_litSatSpec objects n lit (hrel conj hconj lit hl)).2 (hall lit hl)

/-- C3 witness: a two-disjunct formula over the world `[["a"], ["b"]]`. -/
theorem C3_goal_iff_witness :
    (∀ conj ∈ ([[⟨true, "holding", ["a"]⟩],
        [⟨true, "ontop", ["a", "floor"]⟩, ⟨true, "leftof", ["a", "b"]⟩]] : DNFFormula),
      ∀ lit ∈ conj, lit.relation ∈ relationNames)
    ∧ (goal [[⟨true, "holding", ["a"]⟩],
        [⟨true, "ontop", ["a", "floor"]⟩, ⟨true, "leftof", ["a", "b"]⟩]] sampleObjects
          ⟨[["a"], ["b"]], none, 0, none, none⟩ = true ↔
        ∃ conj ∈ ([[⟨true, "holding", ["a"]⟩],
          [⟨true, "ontop", ["a", "floor"]⟩, ⟨true, "leftof", ["a", "b"]⟩]] : DNFFormula),
          ∀ lit ∈ conj, LitSatSpec ⟨[["a"], ["b"]], none, 0, none, none⟩ lit) :=
  ⟨by decide, C3_goal_iff_some_conjunction _ sampleObjects _ (by decide)⟩

/-- The `forEach` accumulation over one interpretation is the sum of the
per-literal contributions. -/
theorem conjHeuristic_eq_sum (n : PlannerNode) (conj : Conjunction) :
    conjHeuristic n conj = (conj.map (litHeuristic n)).sum := by
  unfold conjHeuristic
  suffices h : ∀ a : Int, conj.foldl (fun acc cond => acc + litHeuristic n cond) a
      = a + (conj.map (litHeuristic n)).sum by
    simpa using h 0
  induction conj with
  | nil => intro a; simp
  | cons c cs ih =>
    intro a
    simp only [List.foldl_cons, List.map_cons, List.sum_cons, ih]
    ring

/-- Minimum characterisation of `List.min?` over the integers. -/
theorem int_min?_eq_some_iff {xs : List Int} {m : Int} :
    xs.min? = some m ↔ m ∈ xs ∧ ∀ b ∈ xs, m ≤ b := by
  have anti : Std.Antisymm (fun a b : Int => a ≤ b) := ⟨fun h1 h2 => le_antisymm h1 h2⟩
  rw [@List.min?_eq_some_iff Int m _ _ anti (fun a => le_refl a) (fun a b => min_choice a b)
    (fun a b c => le_min_iff) xs]

/-- C4: for a non-empty goal formula the heuristic is the minimum, over
the conjunctions, of the sum of the per-literal estimates of that
conjunction — per-literal estimates are summed within a conjunction, and
the minimum is taken across conjunctions. -/
theorem C4_heuristics_min_of_sums (interps : DNFFormula) (n : PlannerNode)
    (hne : interps ≠ []) :
    ∃ m, heuristics interps n = some m
      ∧ (∃ conj ∈ interps, m = (conj.map (litHeuristic n)).sum)
      ∧ ∀ conj ∈ interps, m ≤ (conj.map (litHeuristic n)).sum := by
  unfold heuristics
  obtain ⟨m, hm⟩ : ∃ m, (interps.map (conjHeuristic n)).min? = some m := by
    cases hmin : (interps.map (conjHeuristic n)).min? with
    | none =>
      rw [List.min?_eq_none_iff] at hmin
      exact absurd (List.map_eq_nil_iff.mp hmin) hne
    | some m => exact ⟨m, rfl⟩
  rw [int_min?_eq_some_iff] at hm
  obtain ⟨hmem, hle⟩ := hm
  rw [List.mem_map] at hmem
  obtain ⟨conj, hconj, hval⟩ := hmem
  refine ⟨m, ?_, ⟨conj, hconj, by rw [← hval, conjHeuristic_eq_sum]⟩, ?_⟩
  · rw [int_min?_eq_some_iff]
    refine ⟨?_, hle⟩
    rw [List.mem_map]
    exact ⟨conj, hconj, hval⟩
  · intro c hc
    rw [← conjHeuristic_eq_sum]
    exact hle _ (List.mem_map.mpr ⟨c, hc, rfl⟩)

/-- C4 witness: a formula with two conjunctions, one of which has two
literals, over a concrete world. -/
theorem C4_heuristics_min_of_sums_witness :
    ([[⟨true, "holding", ["a"]⟩],
      [⟨true, "ontop", ["a", "b"]⟩, ⟨true, "beside", ["a", "b"]⟩]] : DNFFormula) ≠ []
    ∧ ∃ m, heuristics [[⟨true, "holding", ["a"]⟩],
        [⟨true, "ontop", ["a", "b"]⟩, ⟨true, "beside", ["a", "b"]⟩]]
        ⟨[["a"], ["b"]], none, 0, none, none⟩ = some m
      ∧ (∃ conj ∈ ([[⟨true, "holding", ["a"]⟩],
          [⟨true, "ontop", ["a", "b"]⟩, ⟨true, "beside", ["a", "b"]⟩]] : DNFFormula),
          m = (conj.map (litHeuristic ⟨[["a"], ["b"]], none, 0, none, none⟩)).sum)
      ∧ ∀ conj ∈ ([[⟨true, "holding", ["a"]⟩],
          [⟨true, "ontop", ["a", "b"]⟩, ⟨true, "beside", ["a", "b"]⟩]] : DNFFormula),
          m ≤ (conj.map (litHeuristic ⟨[["a"], ["b"]], none, 0, none, none⟩)).sum :=
  ⟨by decide, C4_heuristics_min_of_sums _ _ (by decide)⟩

theorem spos_nonneg_of_located {n : PlannerNode} {e : Option String} {z : String}
    (hez : e = some z) (hloc : findColumn n.stacks' z ≠ none) :
    0 ≤ jsIndexOf (n.stacks'.getD (getStackIndex n.stacks' e n.arm) []) e := by
  subst hez
  obtain ⟨c, hc⟩ := Option.ne_none_iff_exists'.mp hloc
  rw [getStackIndex_of_some hc]
  exact jsIndexOf_nonneg_of_mem (findColumn_spec hc).2

theorem getStackIndex_default_of_neg {sts : List Stack} {e : Option String} {dflt : Nat}
    (h : jsIndexOf (sts.getD (getStackIndex sts e dflt) []) e = -1) :
    getStackIndex sts e dflt = dflt := by
  cases e with
  | none => rfl
  | some z =>
    cases hf : findColumn sts z with
    | none => exact getStackIndex_of_none hf
    | some c =>
      exfalso
      rw [getStackIndex_of_some hf] at h
      have hm := (findColumn_spec hf).2
      have := jsIndexOf_nonneg_of_mem hm
      omega

set_option maxHeartbeats 1000000 in
theorem litHeuristic_nonneg (n : PlannerNode) (cond : Literal)
    (hlr : (cond.relation = "leftof" ∨ cond.relation = "rightof") →
      ∃ z, (if cond.relation = "rightof" then cond.args[0]? else cond.args[1]?) = some z ∧
        (findColumn n.stacks' z ≠ none ∨ n.holding = some z)) :
    0 ≤ litHeuristic n cond := by
  simp only [litHeuristic]
  by_cases hhold : cond.relation = "holding" ∧ ¬ jsEq n.holding (cond.args[0]?)
  · rw [if_pos hhold]
    have h1 : (0 : Int) ≤ |(↑(getStackIndex n.stacks' cond.args[0]? n.arm) : Int) - (n.arm : Int)| :=
      abs_nonneg _
    have h2 : (0 : Int) ≤ numAbove
        (n.stacks'.getD (getStackIndex n.stacks' cond.args[0]? n.arm) [])
        (jsIndexOf (n.stacks'.getD (getStackIndex n.stacks' cond.args[0]? n.arm) [])
          cond.args[0]?) := numAbove_nonneg
    split_ifs <;> linarith
  · rw [if_neg hhold]
    by_cases hswap : cond.relation = "rightof" ∨ cond.relation = "under"
    · simp only [if_pos hswap]
      set fi := getStackIndex n.stacks' (cond.args[1]?) n.arm with hfi
      set si := getStackIndex n.stacks' (cond.args[0]?) n.arm with hsi
      set fpos := jsIndexOf (n.stacks'.getD fi []) (cond.args[1]?) with hfpos
      set spos := jsIndexOf (n.stacks'.getD si []) (cond.args[0]?) with hspos
      set nA1 := numAbove (n.stacks'.getD fi []) fpos with hnA1def
      set nA2 := numAbove (n.stacks'.getD si []) spos with hnA2def
      have hA1 : (0 : Int) ≤ nA1 := by rw [hnA1def, hfpos]; exact numAbove_nonneg
      have hA2 : (0 : Int) ≤ nA2 := by rw [hnA2def, hspos]; exact numAbove_nonneg
      have habs1 : (0 : Int) ≤ |(fi : Int) - (n.arm : Int)| := abs_nonneg _
      have habs2 : (0 : Int) ≤ |(si : Int) - (n.arm : Int)| := abs_nonneg _
      have habs3 : (0 : Int) ≤ |(fi : Int) - (si : Int)| := abs_nonneg _
      have hmin1 : (0 : Int) ≤ min |(fi : Int) - (n.arm : Int)| |(si : Int) - (n.arm : Int)| :=
        le_min habs1 habs2
      have hmin2 : (0 : Int) ≤ min (|(fi : Int) - (n.arm : Int)| + nA1 * 4)
          (|(si : Int) - (n.arm : Int)| + nA2 * 4) := le_min (by linarith) (by linarith)
      have hfi_neg : fpos = -1 → fi = n.arm := by
        intro h
        rw [hfpos, hfi] at h
        rw [hfi]
        exact getStackIndex_default_of_neg h
      by_cases hLR : (cond.relation = "leftof" ∨ cond.relation = "rightof") ∧
          ¬(fi < si ∧ ¬(fpos = -1 ∨ spos = -1))
      · rw [if_pos hLR]
        by_cases hOne : ¬(fpos = -1 ∨ spos = -1)
        · rw [if_pos hOne]
          split_ifs <;> linarith
        · rw [if_neg hOne]
          have hOne' : fpos = -1 ∨ spos = -1 := not_not.mp hOne
          by_cases hAB : (jsEq n.holding (cond.args[1]?) ∧ n.arm < si) ∨
              (jsEq n.holding (cond.args[0]?) ∧ fi < n.arm)
          · rw [if_pos hAB]
            norm_num
          · rw [if_neg hAB]
            obtain ⟨hnA, hnB⟩ := not_or.mp hAB
            by_cases hjF : jsEq n.holding (cond.args[1]?)
            · rw [if_pos hjF]
              have hsile : si ≤ n.arm := by
                by_contra hlt
                exact hnA ⟨hjF, by omega⟩
              split_ifs <;> linarith
            · rw [if_neg hjF]
              rcases hOne' with hf | hs
              · have hfeq : fi = n.arm := hfi_neg hf
                split_ifs <;> linarith
              · obtain ⟨z, hzeq, hzloc⟩ := hlr hLR.1
                have hzeq' : (cond.args[0]?) = some z := by
                  have hrelR : cond.relation = "rightof" := by
                    rcases hLR.1 with h' | h'
                    · rcases hswap with hs' | hs' <;> (rw [h'] at hs'; exact absurd hs' (by decide))
                    · exact h'
                  rw [if_pos hrelR] at hzeq
                  exact hzeq
                have hjS : jsEq n.holding (cond.args[0]?) := by
                  rcases hzloc with hloc | hheld
                  · exfalso
                    have hnn : 0 ≤ spos := by
                      rw [hspos, hsi]
                      exact spos_nonneg_of_located hzeq' hloc
                    omega
                  · exact ⟨by rw [hzeq']; simp, by rw [hzeq']; exact hheld⟩
                have harmle : n.arm ≤ fi := by
                  by_contra hlt
                  exact hnB ⟨hjS, by omega⟩
                split_ifs <;> linarith
      · rw [if_neg hLR]
        by_cases hBES : cond.relation = "beside" ∧
            ¬(|(fi : Int) - (si : Int)| = 1 ∧ ¬(fpos = -1 ∨ spos = -1))
        · rw [if_pos hBES]
          by_cases hOne : ¬(fpos = -1 ∨ spos = -1)
          · rw [if_pos hOne]
            linarith
          · rw [if_neg hOne]
            split_ifs
            · exact habs2
            · exact habs1
        · rw [if_neg hBES]
          by_cases hIO : (cond.relation = "inside" ∨ cond.relation = "ontop") ∧
              ¬(|(fi : Int) - (si : Int)| = 0 ∧ fpos = spos + 1 ∧ ¬(fpos = -1 ∨ spos = -1))
          · rw [if_pos hIO]
            split_ifs <;> linarith
          · rw [if_neg hIO]
            by_cases hAU : (cond.relation = "above" ∨ cond.relation = "under") ∧
                ¬(|(fi : Int) - (si : Int)| = 0 ∧ spos < fpos ∧ ¬(fpos = -1 ∨ spos = -1))
            · rw [if_pos hAU]
              split_ifs <;> linarith
            · rw [if_neg hAU]
    · simp only [if_neg hswap]
      set fi := getStackIndex n.stacks' (cond.args[0]?) n.arm with hfi
      set si := getStackIndex n.stacks' (cond.args[1]?) n.arm with hsi
      set fpos := jsIndexOf (n.stacks'.getD fi []) (cond.args[0]?) with hfpos
      set spos := jsIndexOf (n.stacks'.getD si []) (cond.args[1]?) with hspos
      set nA1 := numAbove (n.stacks'.getD fi []) fpos with hnA1def
      set nA2 := numAbove (n.stacks'.getD si []) spos with hnA2def
      have hA1 : (0 : Int) ≤ nA1 := by rw [hnA1def, hfpos]; exact numAbove_nonneg
      have hA2 : (0 : Int) ≤ nA2 := by rw [hnA2def, hspos]; exact numAbove_nonneg
      have habs1 : (0 : Int) ≤ |(fi : Int) - (n.arm : Int)| := abs_nonneg _
      have habs2 : (0 : Int) ≤ |(si : Int) - (n.arm : Int)| := abs_nonneg _
      have habs3 : (0 : Int) ≤ |(fi : Int) - (si : Int)| := abs_nonneg _
      have hmin1 : (0 : Int) ≤ min |(fi : Int) - (n.arm : Int)| |(si : Int) - (n.arm : Int)| :=
        le_min habs1 habs2
      have hmin2 : (0 : Int) ≤ min (|(fi : Int) - (n.arm : Int)| + nA1 * 4)
          (|(si : Int) - (n.arm : Int)| + nA2 * 4) := le_min (by linarith) (by linarith)
      have hfi_neg : fpos = -1 → fi = n.arm := by
        intro h
        rw [hfpos, hfi] at h
        rw [hfi]
        exact getStackIndex_default_of_neg h
      by_cases hLR : (cond.relation = "leftof" ∨ cond.relation = "rightof") ∧
          ¬(fi < si ∧ ¬(fpos = -1 ∨ spos = -1))
      · rw [if_pos hLR]
        by_cases hOne : ¬(fpos = -1 ∨ spos = -1)
        · rw [if_pos hOne]
          split_ifs <;> linarith
        · rw [if_neg hOne]
          have hOne' : fpos = -1 ∨ spos = -1 := not_not.mp hOne
          by_cases hAB : (jsEq n.holding (cond.args[0]?) ∧ n.arm < si) ∨
              (jsEq n.holding (cond.args[1]?) ∧ fi < n.arm)
          · rw [if_pos hAB]
            norm_num
          · rw [if_neg hAB]
            obtain ⟨hnA, hnB⟩ := not_or.mp hAB
            by_cases hjF : jsEq n.holding (cond.args[0]?)
            · rw [if_pos hjF]
              have hsile : si ≤ n.arm := by
                by_contra hlt
                exact hnA ⟨hjF, by omega⟩
              split_ifs <;> linarith
            · rw [if_neg hjF]
              rcases hOne' with hf | hs
              · have hfeq : fi = n.arm := hfi_neg hf
                split_ifs <;> linarith
              · obtain ⟨z, hzeq, hzloc⟩ := hlr hLR.1
                have hzeq' : (cond.args[1]?) = some z := by
                  have hrelL : cond.relation ≠ "rightof" := by
                    intro h'
                    exact hswap (Or.inl h')
                  rw [if_neg hrelL] at hzeq
                  exact hzeq
                have hjS : jsEq n.holding (cond.args[1]?) := by
                  rcases hzloc with hloc | hheld
                  · exfalso
                    have hnn : 0 ≤ spos := by
                      rw [hspos, hsi]
                      exact spos_nonneg_of_located hzeq' hloc
                    omega
                  · exact ⟨by rw [hzeq']; simp, by rw [hzeq']; exact hheld⟩
                have harmle : n.arm ≤ fi := by
                  by_contra hlt
                  exact hnB ⟨hjS, by omega⟩
                split_ifs <;> linarith
      · rw [if_neg hLR]
        by_cases hBES : cond.relation = "beside" ∧
            ¬(|(fi : Int) - (si : Int)| = 1 ∧ ¬(fpos = -1 ∨ spos = -1))
        · rw [if_pos hBES]
          by_cases hOne : ¬(fpos = -1 ∨ spos = -1)
          · rw [if_pos hOne]
            linarith
          · rw [if_neg hOne]
            split_ifs
            · exact habs2
            · exact habs1
        · rw [if_neg hBES]
          by_cases hIO : (cond.relation = "inside" ∨ cond.relation = "ontop") ∧
              ¬(|(fi : Int) - (si : Int)| = 0 ∧ fpos = spos + 1 ∧ ¬(fpos = -1 ∨ spos = -1))
          · rw [if_pos hIO]
            split_ifs <;> linarith
          · rw [if_neg hIO]
            by_cases hAU : (cond.relation = "above" ∨ cond.relation = "under") ∧
                ¬(|(fi : Int) - (si : Int)| = 0 ∧ spos < fpos ∧ ¬(fpos = -1 ∨ spos = -1))
            · rw [if_pos hAU]
              split_ifs <;> linarith
            · rw [if_neg hAU]

/-- C9 (amended): for a non-empty goal formula, the heuristic is a
non-negative integer provided that in every `leftof`/`rightof` literal
the entity required to end up on the right (the second argument of
`leftof`, the first of `rightof`) is an entity located in a stack or
held.  Mere presence in the catalog is not enough (see the
counterexample), and no condition at all is needed for the other
relations. -/
theorem C9_heuristics_nonneg (interps : DNFFormula) (n : PlannerNode)
    (hne : interps ≠ [])
    (hw : ∀ conj ∈ interps, ∀ lit ∈ conj,
      (lit.relation = "leftof" ∨ lit.relation = "rightof") →
      ∃ z, (if lit.relation = "rightof" then lit.args[0]? else lit.args[1]?) = some z ∧
        (findColumn n.stacks' z ≠ none ∨ n.holding = some z)) :
    ∃ m, heuristics interps n = some m ∧ 0 ≤ m := by
  unfold heuristics
  obtain ⟨m, hm⟩ : ∃ m, (interps.map (conjHeuristic n)).min? = some m := by
    cases hmin : (interps.map (conjHeuristic n)).min? with
    | none =>
      rw [List.min?_eq_none_iff] at hmin
      exact absurd (List.map_eq_nil_iff.mp hmin) hne
    | some m => exact ⟨m, rfl⟩
  refine ⟨m, hm, ?_⟩
  rw [int_min?_eq_some_iff] at hm
  obtain ⟨hmem, _⟩ := hm
  rw [List.mem_map] at hmem
  obtain ⟨conj, hconj, hval⟩ := hmem
  rw [← hval, conjHeuristic_eq_sum]
  apply List.sum_nonneg
  intro v hv
  rw [List.mem_map] at hv
  obtain ⟨lit, hlit, hvv⟩ := hv
  rw [← hvv]
  exact litHeuristic_nonneg n lit (hw conj hconj lit hlit)

/-- C9 witness: a single `leftof` literal whose right-hand entity is
located. -/
theorem C9_heuristics_nonneg_witness :
    ([[⟨true, "leftof", ["x", "y"]⟩]] : DNFFormula) ≠ []
    ∧ ∃ m, heuristics [[⟨true, "leftof", ["x", "y"]⟩]]
        ⟨[["x"], ["y"]], none, 0, none, none⟩ = some m ∧ 0 ≤ m :=
  ⟨by decide,
    C9_heuristics_nonneg [[⟨true, "leftof", ["x", "y"]⟩]]
      ⟨[["x"], ["y"]], none, 0, none, none⟩ (by decide)
      (by
        intro conj hconj lit hlit hrel
        simp only [List.mem_singleton] at hconj
        subst hconj
        simp only [List.mem_singleton] at hlit
        subst hlit
        exact ⟨"y", by decide, Or.inl (by decide)⟩)⟩

/-- C9 (counterexample to the claim as stated): with `x` located at
column 0, the arm at column 3, and `y` present in the catalog but
nowhere in the world, the single-literal formula `leftof(x, y)`
evaluates to the negative heuristic `-1`. -/
theorem C9_counterexample_negative_heuristic :
    heuristics [[⟨true, "leftof", ["x", "y"]⟩]]
        ⟨[["x"], [], [], []], none, 3, none, none⟩ = some (-1)
    ∧ (-1 : Int) < 0
    ∧ sampleObjects "x" = ⟨"ball", "small", "black"⟩
    ∧ sampleObjects "y" = ⟨"ball", "small", "green"⟩ :=
  ⟨rfl, by decide, rfl, rfl⟩

theorem litH_holding (objects : String → ObjectDefinition) (n : PlannerNode) (lit : Literal)
    (hrel : lit.relation = "holding") :
    (LitSatSpec n lit → litHeuristic n lit = 0)
    ∧ (¬ LitSatSpec n lit → 0 < litHeuristic n lit) := by
  constructor
  · intro hs
    rw [LitSatSpec] at hs
    rw [if_pos hrel] at hs
    cases h0 : lit.args[0]? with
    | none => rw [h0] at hs; exact absurd hs (by simp)
    | some x =>
      rw [h0] at hs
      simp [litHeuristic, hrel, h0, hs, jsEq]
  · intro hs
    rw [LitSatSpec] at hs
    rw [if_pos hrel] at hs
    have hcond : lit.relation = "holding" ∧ ¬ jsEq n.holding (lit.args[0]?) := by
      refine ⟨hrel, ?_⟩
      cases h0 : lit.args[0]? with
      | none => simp [jsEq]
      | some x =>
        rw [h0] at hs
        simp only [jsEq]
        rintro ⟨-, h⟩
        exact hs h
    simp only [litHeuristic]
    rw [if_pos hcond]
    have h1 : (0 : Int) ≤
        |(↑(getStackIndex n.stacks' lit.args[0]? n.arm) : Int) - (n.arm : Int)| := abs_nonneg _
    have h2 : (0 : Int) ≤ numAbove
        (n.stacks'.getD (getStackIndex n.stacks' lit.args[0]? n.arm) [])
        (jsIndexOf (n.stacks'.getD (getStackIndex n.stacks' lit.args[0]? n.arm) [])
          lit.args[0]?) := numAbove_nonneg
    split_ifs <;> linarith

theorem litH_beside (objects : String → ObjectDefinition) (n : PlannerNode) (lit : Literal)
    (hrel : lit.relation = "beside") {x y : String}
    (hx : lit.args[0]? = some x) (hy : lit.args[1]? = some y) (hyf : y ≠ "floor")
    (hlx : located n x) (hly : located n y) :
    (LitSatSpec n lit → litHeuristic n lit = 0)
    ∧ (¬ LitSatSpec n lit → 0 < litHeuristic n lit) := by
  obtain ⟨ci, hci⟩ := Option.ne_none_iff_exists'.mp hlx
  obtain ⟨cj, hcj⟩ := Option.ne_none_iff_exists'.mp hly
  have hxm : x ∈ n.stacks'[ci]?.getD [] := by simpa using (findColumn_spec hci).2
  have hym : y ∈ n.stacks'[cj]?.getD [] := by simpa using (findColumn_spec hcj).2
  have hsat : LitSatSpec n lit ↔ (ci = cj + 1 ∨ cj = ci + 1) := by
    simp [LitSatSpec, hrel, hx, hy, hci, hcj, hyf]
  have hfi : getStackIndex n.stacks' (some x) n.arm = ci := getStackIndex_of_some hci
  have hsi : getStackIndex n.stacks' (some y) n.arm = cj := getStackIndex_of_some hcj
  have hfposnn : 0 ≤ jsIndexOf (n.stacks'[ci]?.getD []) (some x) := jsIndexOf_nonneg_of_mem hxm
  have hsposnn : 0 ≤ jsIndexOf (n.stacks'[cj]?.getD []) (some y) := jsIndexOf_nonneg_of_mem hym
  have hne1 : ¬ (jsIndexOf (n.stacks'[ci]?.getD []) (some x) = -1) := by omega
  have hne2 : ¬ (jsIndexOf (n.stacks'[cj]?.getD []) (some y) = -1) := by omega
  have hA1 : (0 : Int) ≤ numAbove (n.stacks'[ci]?.getD [])
      (jsIndexOf (n.stacks'[ci]?.getD []) (some x)) := numAbove_nonneg
  have hA2 : (0 : Int) ≤ numAbove (n.stacks'[cj]?.getD [])
      (jsIndexOf (n.stacks'[cj]?.getD []) (some y)) := numAbove_nonneg
  have habs1 : (0 : Int) ≤ |(ci : Int) - (n.arm : Int)| := abs_nonneg _
  have habs2 : (0 : Int) ≤ |(cj : Int) - (n.arm : Int)| := abs_nonneg _
  constructor
  · intro hs
    rw [hsat] at hs
    have habs : |(ci : Int) - (cj : Int)| = 1 := by
      rw [abs_eq (by norm_num : (0 : Int) ≤ 1)]
      omega
    simp [litHeuristic, hrel, hx, hy, hfi, hsi, habs, hne1, hne2]
  · intro hs
    rw [hsat] at hs
    have habs : ¬ (|(ci : Int) - (cj : Int)| = 1) := by
      rw [abs_eq (by norm_num : (0 : Int) ≤ 1)]
      omega
    have hmin : (0 : Int) ≤ min (|(ci : Int) - (n.arm : Int)| + numAbove (n.stacks'[ci]?.getD [])
        (jsIndexOf (n.stacks'[ci]?.getD []) (some x)) * 4)
        (|(cj : Int) - (n.arm : Int)| + numAbove (n.stacks'[cj]?.getD [])
          (jsIndexOf (n.stacks'[cj]?.getD []) (some y)) * 4) := le_min (by linarith) (by linarith)
    have habs3 : (0 : Int) ≤ |(ci : Int) - (cj : Int)| := abs_nonneg _
    simp [litHeuristic, hrel, hx, hy, hfi, hsi, habs, hne1, hne2]
    linarith

theorem litH_inside_ontop (objects : String → ObjectDefinition) (n : PlannerNode)
    (lit : Literal) (hio : lit.relation = "inside" ∨ lit.relation = "ontop")
    {x y : String}
    (hx : lit.args[0]? = some x) (hy : lit.args[1]? = some y) (hyf : y ≠ "floor")
    (hlx : locOrHeld n x) (hly : locOrHeld n y) :
    (LitSatSpec n lit → litHeuristic n lit = 0)
    ∧ (¬ LitSatSpec n lit → 0 < litHeuristic n lit) := by
  by_cases hLx : located n x
  · obtain ⟨ci, hci⟩ := Option.ne_none_iff_exists'.mp hLx
    have hxm : x ∈ n.stacks'[ci]?.getD [] := by simpa using (findColumn_spec hci).2
    have hfi : getStackIndex n.stacks' (some x) n.arm = ci := getStackIndex_of_some hci
    have hjx : jsIndexOf (n.stacks'[ci]?.getD []) (some x)
        = (((n.stacks'[ci]?.getD []).indexOf x : Nat) : Int) := jsIndexOf_mem_eq hxm
    have hne1 : ¬ (jsIndexOf (n.stacks'[ci]?.getD []) (some x) = -1) := by
      have := jsIndexOf_nonneg_of_mem hxm
      omega
    have hA1 : (0 : Int) ≤ numAbove (n.stacks'[ci]?.getD [])
        (jsIndexOf (n.stacks'[ci]?.getD []) (some x)) := numAbove_nonneg
    have habs1 : (0 : Int) ≤ |(ci : Int) - (n.arm : Int)| := abs_nonneg _
    by_cases hLy : located n y
    · obtain ⟨cj, hcj⟩ := Option.ne_none_iff_exists'.mp hLy
      have hym : y ∈ n.stacks'[cj]?.getD [] := by simpa using (findColumn_spec hcj).2
      have hsi : getStackIndex n.stacks' (some y) n.arm = cj := getStackIndex_of_some hcj
      have hjy : jsIndexOf (n.stacks'[cj]?.getD []) (some y)
          = (((n.stacks'[cj]?.getD []).indexOf y : Nat) : Int) := jsIndexOf_mem_eq hym
      have hne2 : ¬ (jsIndexOf (n.stacks'[cj]?.getD []) (some y) = -1) := by
        have := jsIndexOf_nonneg_of_mem hym
        omega
      have hA2 : (0 : Int) ≤ numAbove (n.stacks'[cj]?.getD [])
          (jsIndexOf (n.stacks'[cj]?.getD []) (some y)) := numAbove_nonneg
      have habs2 : (0 : Int) ≤ |(cj : Int) - (n.arm : Int)| := abs_nonneg _
      have habs3 : (0 : Int) ≤ |(ci : Int) - (cj : Int)| := abs_nonneg _
      have hsat : LitSatSpec n lit ↔
          (ci = cj ∧ (n.stacks'[ci]?.getD []).indexOf x
            = (n.stacks'[cj]?.getD []).indexOf y + 1) := by
        rcases hio with h | h <;> simp [LitSatSpec, h, hx, hy, hci, hcj, hyf]
      constructor
      · intro hs
        rw [hsat] at hs
        have habs0 : |(ci : Int) - (cj : Int)| = 0 := by
          rw [abs_eq_zero]
          omega
        have hfs : jsIndexOf (n.stacks'[ci]?.getD []) (some x)
            = jsIndexOf (n.stacks'[cj]?.getD []) (some y) + 1 := by
          rw [hjx, hjy]
          omega
        have hynn : (0 : Int) ≤ jsIndexOf (n.stacks'[cj]?.getD []) (some y) :=
          jsIndexOf_nonneg_of_mem hym
        have hne1' : ¬ (jsIndexOf (n.stacks'[cj]?.getD []) (some y) + 1 = -1) := by omega
        rcases hio with h | h <;>
          simp [litHeuristic, h, hx, hy, hfi, hsi, habs0, hfs, hne1', hne2]
      · intro hs
        rw [hsat] at hs
        rcases hio with h | h <;>
        · simp only [litHeuristic, h, hx, hy]
          simp [hfi, hsi, hne1, hne2]
          split_ifs with hg1 hg2
          · linarith
          · linarith
          · exfalso
            push_neg at hg1
            obtain ⟨hd, he⟩ := hg1
            rw [hjx, hjy] at he
            exact hs ⟨by omega, by omega⟩
    · have hfy : findColumn n.stacks' y = none := not_not.mp (fun hc => hLy hc)
      have hheldy : n.holding = some y := by
        rcases hly with h | h
        · exact absurd h hLy
        · exact h
      have hsi : getStackIndex n.stacks' (some y) n.arm = n.arm := getStackIndex_of_none hfy
      have hsneg : jsIndexOf (n.stacks'[n.arm]?.getD []) (some y) = -1 := by
        apply jsIndexOf_eq_neg_one
        intro z hz
        cases hz
        rcases @getD_mem_or n.stacks' n.arm with hm | hm
        · exact fun hmem => (findColumn_none hfy _ (by simpa using hm)) (by
            simpa [hm] using hmem)
        · simp only [List.getD_eq_getElem?_getD] at hm
          rw [hm]
          simp
      have hA2 : (0 : Int) ≤ numAbove (n.stacks'[n.arm]?.getD []) (-1) := by norm_num [numAbove]
      have habs2 : (0 : Int) ≤ |(n.arm : Int) - (n.arm : Int)| := abs_nonneg _
      have hns : ¬ LitSatSpec n lit := by
        rcases hio with h | h <;> simp [LitSatSpec, h, hx, hy, hci, hfy, hyf]
      constructor
      · intro hs
        exact absurd hs hns
      · intro _
        rcases hio with h | h <;>
        · simp only [litHeuristic, h, hx, hy]
          simp [hfi, hsi, hsneg]
          split_ifs <;> linarith
  · have hfx : findColumn n.stacks' x = none := not_not.mp (fun hc => hLx hc)
    have hheldx : n.holding = some x := by
      rcases hlx with h | h
      · exact absurd h hLx
      · exact h
    have hfi : getStackIndex n.stacks' (some x) n.arm = n.arm := getStackIndex_of_none hfx
    have hfneg : jsIndexOf (n.stacks'[n.arm]?.getD []) (some x) = -1 := by
      apply jsIndexOf_eq_neg_one
      intro z hz
      cases hz
      rcases @getD_mem_or n.stacks' n.arm with hm | hm
      · exact fun hmem => (findColumn_none hfx _ (by simpa using hm)) (by
          simpa [hm] using hmem)
      · simp only [List.getD_eq_getElem?_getD] at hm
        rw [hm]
        simp
    have hns : ¬ LitSatSpec n lit := by
      rcases hio with h | h <;> simp [LitSatSpec, h, hx, hy, hfx, hyf]
    constructor
    · intro hs
      exact absurd hs hns
    · intro _
      have hjf : jsEq n.holding (some x) := ⟨by simp, hheldx⟩
      rcases hio with h | h <;>
      · simp only [litHeuristic, h, hx, hy]
        simp [hfi, hfneg, hjf]
        have hA2 : (0 : Int) ≤ numAbove
            (n.stacks'[getStackIndex n.stacks' (some y) n.arm]?.getD [])
            (jsIndexOf (n.stacks'[getStackIndex n.stacks' (some y) n.arm]?.getD [])
              (some y)) := numAbove_nonneg
        have habs2 : (0 : Int) ≤
            |(↑(getStackIndex n.stacks' (some y) n.arm) : Int) - (n.arm : Int)| := abs_nonneg _
        linarith

theorem litH_above (n : PlannerNode) (lit : Literal) (hrel : lit.relation = "above")
    {x y : String}
    (hx : lit.args[0]? = some x) (hy : lit.args[1]? = some y) (hyf : y ≠ "floor")
    (hlx : locOrHeld n x) (hly : locOrHeld n y) :
    (LitSatSpec n lit → litHeuristic n lit = 0)
    ∧ (¬ LitSatSpec n lit → 0 < litHeuristic n lit) := by
  by_cases hLx : located n x
  · obtain ⟨ci, hci⟩ := Option.ne_none_iff_exists'.mp hLx
    have hxm : x ∈ n.stacks'[ci]?.getD [] := by simpa using (findColumn_spec hci).2
    have hfi : getStackIndex n.stacks' (some x) n.arm = ci := getStackIndex_of_some hci
    have hjx : jsIndexOf (n.stacks'[ci]?.getD []) (some x)
        = (((n.stacks'[ci]?.getD []).indexOf x : Nat) : Int) := jsIndexOf_mem_eq hxm
    have hne1 : ¬ (jsIndexOf (n.stacks'[ci]?.getD []) (some x) = -1) := by
      have := jsIndexOf_nonneg_of_mem hxm
      omega
    have hA1 : (0 : Int) ≤ numAbove (n.stacks'[ci]?.getD [])
        (jsIndexOf (n.stacks'[ci]?.getD []) (some x)) := numAbove_nonneg
    have habs1 : (0 : Int) ≤ |(ci : Int) - (n.arm : Int)| := abs_nonneg _
    by_cases hLy : located n y
    · obtain ⟨cj, hcj⟩ := Option.ne_none_iff_exists'.mp hLy
      have hym : y ∈ n.stacks'[cj]?.getD [] := by simpa using (findColumn_spec hcj).2
      have hsi : getStackIndex n.stacks' (some y) n.arm = cj := getStackIndex_of_some hcj
      have hjy : jsIndexOf (n.stacks'[cj]?.getD []) (some y)
          = (((n.stacks'[cj]?.getD []).indexOf y : Nat) : Int) := jsIndexOf_mem_eq hym
      have hne2 : ¬ (jsIndexOf (n.stacks'[cj]?.getD []) (some y) = -1) := by
        have := jsIndexOf_nonneg_of_mem hym
        omega
      have hA2 : (0 : Int) ≤ numAbove (n.stacks'[cj]?.getD [])
          (jsIndexOf (n.stacks'[cj]?.getD []) (some y)) := numAbove_nonneg
      have habs2 : (0 : Int) ≤ |(cj : Int) - (n.arm : Int)| := abs_nonneg _
      have habs3 : (0 : Int) ≤ |(ci : Int) - (cj : Int)| := abs_nonneg _
      have hsat : LitSatSpec n lit ↔
          (ci = cj ∧ (n.stacks'[cj]?.getD []).indexOf y
            < (n.stacks'[ci]?.getD []).indexOf x) := by
        simp [LitSatSpec, hrel, hx, hy, hci, hcj, hyf]
      constructor
      · intro hs
        rw [hsat] at hs
        have habs0 : |(ci : Int) - (cj : Int)| = 0 := by
          rw [abs_eq_zero]
          omega
        have hfs : jsIndexOf (n.stacks'[cj]?.getD []) (some y)
            < jsIndexOf (n.stacks'[ci]?.getD []) (some x) := by
          rw [hjx, hjy]
          exact_mod_cast hs.2
        simp [litHeuristic, hrel, hx, hy, hfi, hsi, habs0, hfs, hne1, hne2]
      · intro hs
        rw [hsat] at hs
        simp only [litHeuristic, hrel, hx, hy]
        simp [hfi, hsi, hne1, hne2]
        split_ifs with hg1 hg2
        · linarith
        · linarith
        · exfalso
          push_neg at hg1
          obtain ⟨hd, he⟩ := hg1
          rw [hjx, hjy] at he
          exact hs ⟨by omega, by omega⟩
    · have hfy : findColumn n.stacks' y = none := not_not.mp (fun hc => hLy hc)
      have hsi : getStackIndex n.stacks' (some y) n.arm = n.arm := getStackIndex_of_none hfy
      have hsneg : jsIndexOf (n.stacks'[n.arm]?.getD []) (some y) = -1 := by
        apply jsIndexOf_eq_neg_one
        intro z hz
        cases hz
        rcases @getD_mem_or n.stacks' n.arm with hm | hm
        · exact fun hmem => (findColumn_none hfy _ (by simpa using hm)) (by
            simpa [hm] using hmem)
        · simp only [List.getD_eq_getElem?_getD] at hm
          rw [hm]
          simp
      have hA2 : (0 : Int) ≤ numAbove (n.stacks'[n.arm]?.getD []) (-1) := by
        norm_num [numAbove]
      have habs2 : (0 : Int) ≤ |(n.arm : Int) - (n.arm : Int)| := abs_nonneg _
      have hns : ¬ LitSatSpec n lit := by
        simp [LitSatSpec, hrel, hx, hy, hci, hfy, hyf]
      constructor
      · intro hs
        exact absurd hs hns
      · intro _
        simp only [litHeuristic, hrel, hx, hy]
        simp [hfi, hsi, hsneg]
        split_ifs <;> linarith
  · have hfx : findColumn n.stacks' x = none := not_not.mp (fun hc => hLx hc)
    have hheldx : n.holding = some x := by
      rcases hlx with h | h
      · exact absurd h hLx
      · exact h
    have hfi : getStackIndex n.stacks' (some x) n.arm = n.arm := getStackIndex_of_none hfx
    have hfneg : jsIndexOf (n.stacks'[n.arm]?.getD []) (some x) = -1 := by
      apply jsIndexOf_eq_neg_one
      intro z hz
      cases hz
      rcases @getD_mem_or n.stacks' n.arm with hm | hm
      · exact fun hmem => (findColumn_none hfx _ (by simpa using hm)) (by
          simpa [hm] using hmem)
      · simp only [List.getD_eq_getElem?_getD] at hm
        rw [hm]
        simp
    have hns : ¬ LitSatSpec n lit := by
      simp [LitSatSpec, hrel, hx, hy, hfx, hyf]
    constructor
    · intro hs
      exact absurd hs hns
    · intro _
      have hjf : jsEq n.holding (some x) := ⟨by simp, hheldx⟩
      simp only [litHeuristic, hrel, hx, hy]
      simp [hfi, hfneg, hjf]
      have habs2 : (0 : Int) ≤
          |(↑(getStackIndex n.stacks' (some y) n.arm) : Int) - (n.arm : Int)| := abs_nonneg _
      linarith

theorem litH_under (n : PlannerNode) (lit : Literal) (hrel : lit.relation = "under")
    {x y : String}
    (hx : lit.args[0]? = some x) (hy : lit.args[1]? = some y) (hyf : y ≠ "floor")
    (hlx : locOrHeld n x) (hly : locOrHeld n y) :
    (LitSatSpec n lit → litHeuristic n lit = 0)
    ∧ (¬ LitSatSpec n lit → 0 < litHeuristic n lit) := by
  by_cases hLy : located n y
  · obtain ⟨cj, hcj⟩ := Option.ne_none_iff_exists'.mp hLy
    have hym : y ∈ n.stacks'[cj]?.getD [] := by simpa using (findColumn_spec hcj).2
    have hfi : getStackIndex n.stacks' (some y) n.arm = cj := getStackIndex_of_some hcj
    have hjy : jsIndexOf (n.stacks'[cj]?.getD []) (some y)
        = (((n.stacks'[cj]?.getD []).indexOf y : Nat) : Int) := jsIndexOf_mem_eq hym
    have hne1 : ¬ (jsIndexOf (n.stacks'[cj]?.getD []) (some y) = -1) := by
      have := jsIndexOf_nonneg_of_mem hym
      omega
    have hA1 : (0 : Int) ≤ numAbove (n.stacks'[cj]?.getD [])
        (jsIndexOf (n.stacks'[cj]?.getD []) (some y)) := numAbove_nonneg
    have habs1 : (0 : Int) ≤ |(cj : Int) - (n.arm : Int)| := abs_nonneg _
    by_cases hLx : located n x
    · obtain ⟨ci, hci⟩ := Option.ne_none_iff_exists'.mp hLx
      have hxm : x ∈ n.stacks'[ci]?.getD [] := by simpa using (findColumn_spec hci).2
      have hsi : getStackIndex n.stacks' (some x) n.arm = ci := getStackIndex_of_some hci
      have hjx : jsIndexOf (n.stacks'[ci]?.getD []) (some x)
          = (((n.stacks'[ci]?.getD []).indexOf x : Nat) : Int) := jsIndexOf_mem_eq hxm
      have hne2 : ¬ (jsIndexOf (n.stacks'[ci]?.getD []) (some x) = -1) := by
        have := jsIndexOf_nonneg_of_mem hxm
        omega
      have hA2 : (0 : Int) ≤ numAbove (n.stacks'[ci]?.getD [])
          (jsIndexOf (n.stacks'[ci]?.getD []) (some x)) := numAbove_nonneg
      have habs2 : (0 : Int) ≤ |(ci : Int) - (n.arm : Int)| := abs_nonneg _
      have habs3 : (0 : Int) ≤ |(cj : Int) - (ci : Int)| := abs_nonneg _
      have hsat : LitSatSpec n lit ↔
          (ci = cj ∧ (n.stacks'[ci]?.getD []).indexOf x
            < (n.stacks'[cj]?.getD []).indexOf y) := by
        simp [LitSatSpec, hrel, hx, hy, hci, hcj, hyf]
      constructor
      · intro hs
        rw [hsat] at hs
        have habs0 : |(cj : Int) - (ci : Int)| = 0 := by
          rw [abs_eq_zero]
          omega
        have hfs : jsIndexOf (n.stacks'[ci]?.getD []) (some x)
            < jsIndexOf (n.stacks'[cj]?.getD []) (some y) := by
          rw [hjx, hjy]
          exact_mod_cast hs.2
        simp [litHeuristic, hrel, hx, hy, hfi, hsi, habs0, hfs, hne1, hne2]
      · intro hs
        rw [hsat] at hs
        simp only [litHeuristic, hrel, hx, hy]
        simp [hfi, hsi, hne1, hne2]
        split_ifs with hg1 hg2
        · linarith
        · linarith
        · exfalso
          push_neg at hg1
          obtain ⟨hd, he⟩ := hg1
          rw [hjx, hjy] at he
          exact hs ⟨by omega, by omega⟩
    · have hfx : findColumn n.stacks' x = none := not_not.mp (fun hc => hLx hc)
      have hsi : getStackIndex n.stacks' (some x) n.arm = n.arm := getStackIndex_of_none hfx
      have hsneg : jsIndexOf (n.stacks'[n.arm]?.getD []) (some x) = -1 := by
        apply jsIndexOf_eq_neg_one
        intro z hz
        cases hz
        rcases @getD_mem_or n.stacks' n.arm with hm | hm
        · exact fun hmem => (findColumn_none hfx _ (by simpa using hm)) (by
            simpa [hm] using hmem)
        · simp only [List.getD_eq_getElem?_getD] at hm
          rw [hm]
          simp
      have habs2 : (0 : Int) ≤ |(n.arm : Int) - (n.arm : Int)| := abs_nonneg _
      have hns : ¬ LitSatSpec n lit := by
        simp [LitSatSpec, hrel, hx, hy, hfx, hyf]
      constructor
      · intro hs
        exact absurd hs hns
      · intro _
        simp only [litHeuristic, hrel, hx, hy]
        simp [hfi, hsi, hsneg]
        split_ifs <;> linarith
  · have hfy : findColumn n.stacks' y = none := not_not.mp (fun hc => hLy hc)
    have hheldy : n.holding = some y := by
      rcases hly with h | h
      · exact absurd h hLy
      · exact h
    have hfi : getStackIndex n.stacks' (some y) n.arm = n.arm := getStackIndex_of_none hfy
    have hfneg : jsIndexOf (n.stacks'[n.arm]?.getD []) (some y) = -1 := by
      apply jsIndexOf_eq_neg_one
      intro z hz
      cases hz
      rcases @getD_mem_or n.stacks' n.arm with hm | hm
      · exact fun hmem => (findColumn_none hfy _ (by simpa using hm)) (by
          simpa [hm] using hmem)
      · simp only [List.getD_eq_getElem?_getD] at hm
        rw [hm]
        simp
    have hns : ¬ LitSatSpec n lit := by
      cases hfc : findColumn n.stacks' x <;>
        simp [LitSatSpec, hrel, hx, hy, hfy, hyf, hfc]
    constructor
    · intro hs
      exact absurd hs hns
    · intro _
      have hjf : jsEq n.holding (some y) := ⟨by simp, hheldy⟩
      simp only [litHeuristic, hrel, hx, hy]
      simp [hfi, hfneg, hjf]
      have habs2 : (0 : Int) ≤
          |(↑(getStackIndex n.stacks' (some x) n.arm) : Int) - (n.arm : Int)| := abs_nonneg _
      linarith

theorem litH_leftof (n : PlannerNode) (lit : Literal) (hrel : lit.relation = "leftof")
    {x y : String}
    (hx : lit.args[0]? = some x) (hy : lit.args[1]? = some y) (hyf : y ≠ "floor")
    (hlx : locOrHeld n x) (hly : locOrHeld n y) :
    (LitSatSpec n lit → litHeuristic n lit = 0)
    ∧ (¬ LitSatSpec n lit → 0 < litHeuristic n lit) := by
  by_cases hLx : located n x
  · obtain ⟨ci, hci⟩ := Option.ne_none_iff_exists'.mp hLx
    have hxm : x ∈ n.stacks'[ci]?.getD [] := by simpa using (findColumn_spec hci).2
    have hfi : getStackIndex n.stacks' (some x) n.arm = ci := getStackIndex_of_some hci
    have hne1 : ¬ (jsIndexOf (n.stacks'[ci]?.getD []) (some x) = -1) := by
      have := jsIndexOf_nonneg_of_mem hxm
      omega
    have hA1 : (0 : Int) ≤ numAbove (n.stacks'[ci]?.getD [])
        (jsIndexOf (n.stacks'[ci]?.getD []) (some x)) := numAbove_nonneg
    have habs1 : (0 : Int) ≤ |(ci : Int) - (n.arm : Int)| := abs_nonneg _
    by_cases hLy : located n y
    · obtain ⟨cj, hcj⟩ := Option.ne_none_iff_exists'.mp hLy
      have hym : y ∈ n.stacks'[cj]?.getD [] := by simpa using (findColumn_spec hcj).2
      have hsi : getStackIndex n.stacks' (some y) n.arm = cj := getStackIndex_of_some hcj
      have hne2 : ¬ (jsIndexOf (n.stacks'[cj]?.getD []) (some y) = -1) := by
        have := jsIndexOf_nonneg_of_mem hym
        omega
      have hA2 : (0 : Int) ≤ numAbove (n.stacks'[cj]?.getD [])
          (jsIndexOf (n.stacks'[cj]?.getD []) (some y)) := numAbove_nonneg
      have habs2 : (0 : Int) ≤ |(cj : Int) - (n.arm : Int)| := abs_nonneg _
      have habs3 : (0 : Int) ≤ |(ci : Int) - (cj : Int)| := abs_nonneg _
      have hminA : (0 : Int) ≤ min |(ci : Int) - (n.arm : Int)| |(cj : Int) - (n.arm : Int)| :=
        le_min habs1 habs2
      have hminB : (0 : Int) ≤ min (|(ci : Int) - (n.arm : Int)|
          + numAbove (n.stacks'[ci]?.getD [])
            (jsIndexOf (n.stacks'[ci]?.getD []) (some x)) * 4)
          (|(cj : Int) - (n.arm : Int)| + numAbove (n.stacks'[cj]?.getD [])
            (jsIndexOf (n.stacks'[cj]?.getD []) (some y)) * 4) :=
        le_min (by linarith) (by linarith)
      have hsat : LitSatSpec n lit ↔ ci < cj := by
        simp [LitSatSpec, hrel, hx, hy, hci, hcj, hyf]
      constructor
      · intro hs
        rw [hsat] at hs
        simp [litHeuristic, hrel, hx, hy, hfi, hsi, hs, hne1, hne2]
      · intro hs
        rw [hsat] at hs
        simp only [litHeuristic, hrel, hx, hy]
        simp [hfi, hsi, hne1, hne2]
        split_ifs <;> linarith
    · have hfy : findColumn n.stacks' y = none := not_not.mp (fun hc => hLy hc)
      have hheldy : n.holding = some y := by
        rcases hly with h | h
        · exact absurd h hLy
        · exact h
      have hsi : getStackIndex n.stacks' (some y) n.arm = n.arm := getStackIndex_of_none hfy
      have hsneg : jsIndexOf (n.stacks'[n.arm]?.getD []) (some y) = -1 := by
        apply jsIndexOf_eq_neg_one
        intro z hz
        cases hz
        rcases @getD_mem_or n.stacks' n.arm with hm | hm
        · exact fun hmem => (findColumn_none hfy _ (by simpa using hm)) (by
            simpa [hm] using hmem)
        · simp only [List.getD_eq_getElem?_getD] at hm
          rw [hm]
          simp
      have hjfn : ¬ jsEq n.holding (some x) := by
        rintro ⟨-, hh⟩
        rw [hheldy] at hh
        cases hh
        exact hLy hLx
      have hjs : jsEq n.holding (some y) := ⟨by simp, hheldy⟩
      have hns : ¬ LitSatSpec n lit := by
        simp [LitSatSpec, hrel, hx, hy, hci, hfy, hyf]
      constructor
      · intro hs
        exact absurd hs hns
      · intro _
        have hyx : y ≠ x := fun h => hLy (h ▸ hLx)
        by_cases hB : ci < n.arm
        · simp [litHeuristic, jsEq, hrel, hx, hy, hfi, hsi, hne1, hsneg, hheldy, hyx, hB]
        · have hle : (n.arm : Int) ≤ (ci : Int) := by
            exact_mod_cast Nat.le_of_not_lt hB
          simp [litHeuristic, jsEq, hrel, hx, hy, hfi, hsi, hne1, hsneg, hheldy, hyx, hB]
          split_ifs <;> linarith
  · have hfx : findColumn n.stacks' x = none := not_not.mp (fun hc => hLx hc)
    have hheldx : n.holding = some x := by
      rcases hlx with h | h
      · exact absurd h hLx
      · exact h
    have hfi : getStackIndex n.stacks' (some x) n.arm = n.arm := getStackIndex_of_none hfx
    have hfneg : jsIndexOf (n.stacks'[n.arm]?.getD []) (some x) = -1 := by
      apply jsIndexOf_eq_neg_one
      intro z hz
      cases hz
      rcases @getD_mem_or n.stacks' n.arm with hm | hm
      · exact fun hmem => (findColumn_none hfx _ (by simpa using hm)) (by
          simpa [hm] using hmem)
      · simp only [List.getD_eq_getElem?_getD] at hm
        rw [hm]
        simp
    have hjf : jsEq n.holding (some x) := ⟨by simp, hheldx⟩
    have hA1' : (0 : Int) ≤ numAbove (n.stacks'[n.arm]?.getD []) (-1) := by
      norm_num [numAbove]
    have hA2 : (0 : Int) ≤ numAbove
        (n.stacks'[getStackIndex n.stacks' (some y) n.arm]?.getD [])
        (jsIndexOf (n.stacks'[getStackIndex n.stacks' (some y) n.arm]?.getD [])
          (some y)) := numAbove_nonneg
    have hns : ¬ LitSatSpec n lit := by
      simp [LitSatSpec, hrel, hx, hy, hfx, hyf]
    constructor
    · intro hs
      exact absurd hs hns
    · intro _
      by_cases hB : n.arm < getStackIndex n.stacks' (some y) n.arm
      · simp [litHeuristic, jsEq, hrel, hx, hy, hfi, hfneg, hheldx, hB]
      · have hle : ((getStackIndex n.stacks' (some y) n.arm : Nat) : Int) ≤ (n.arm : Int) := by
          exact_mod_cast Nat.le_of_not_lt hB
        simp [litHeuristic, jsEq, hrel, hx, hy, hfi, hfneg, hheldx, hB]
        split_ifs <;> linarith

theorem litH_rightof (n : PlannerNode) (lit : Literal) (hrel : lit.relation = "rightof")
    {x y : String}
    (hx : lit.args[0]? = some x) (hy : lit.args[1]? = some y) (hyf : y ≠ "floor")
    (hlx : locOrHeld n x) (hly : locOrHeld n y) :
    (LitSatSpec n lit → litHeuristic n lit = 0)
    ∧ (¬ LitSatSpec n lit → 0 < litHeuristic n lit) := by
  by_cases hLy : located n y
  · obtain ⟨cj, hcj⟩ := Option.ne_none_iff_exists'.mp hLy
    have hym : y ∈ n.stacks'[cj]?.getD [] := by simpa using (findColumn_spec hcj).2
    have hfi : getStackIndex n.stacks' (some y) n.arm = cj := getStackIndex_of_some hcj
    have hne1 : ¬ (jsIndexOf (n.stacks'[cj]?.getD []) (some y) = -1) := by
      have := jsIndexOf_nonneg_of_mem hym
      omega
    have hA1 : (0 : Int) ≤ numAbove (n.stacks'[cj]?.getD [])
        (jsIndexOf (n.stacks'[cj]?.getD []) (some y)) := numAbove_nonneg
    have habs1 : (0 : Int) ≤ |(cj : Int) - (n.arm : Int)| := abs_nonneg _
    by_cases hLx : located n x
    · obtain ⟨ci, hci⟩ := Option.ne_none_iff_exists'.mp hLx
      have hxm : x ∈ n.stacks'[ci]?.getD [] := by simpa using (findColumn_spec hci).2
      have hsi : getStackIndex n.stacks' (some x) n.arm = ci := getStackIndex_of_some hci
      have hne2 : ¬ (jsIndexOf (n.stacks'[ci]?.getD []) (some x) = -1) := by
        have := jsIndexOf_nonneg_of_mem hxm
        omega
      have hA2 : (0 : Int) ≤ numAbove (n.stacks'[ci]?.getD [])
          (jsIndexOf (n.stacks'[ci]?.getD []) (some x)) := numAbove_nonneg
      have habs2 : (0 : Int) ≤ |(ci : Int) - (n.arm : Int)| := abs_nonneg _
      have habs3 : (0 : Int) ≤ |(cj : Int) - (ci : Int)| := abs_nonneg _
      have hminA : (0 : Int) ≤ min |(cj : Int) - (n.arm : Int)| |(ci : Int) - (n.arm : Int)| :=
        le_min habs1 habs2
      have hminB : (0 : Int) ≤ min (|(cj : Int) - (n.arm : Int)|
          + numAbove (n.stacks'[cj]?.getD [])
            (jsIndexOf (n.stacks'[cj]?.getD []) (some y)) * 4)
          (|(ci : Int) - (n.arm : Int)| + numAbove (n.stacks'[ci]?.getD [])
            (jsIndexOf (n.stacks'[ci]?.getD []) (some x)) * 4) :=
        le_min (by linarith) (by linarith)
      have hsat : LitSatSpec n lit ↔ cj < ci := by
        simp [LitSatSpec, hrel, hx, hy, hci, hcj, hyf]
      constructor
      · intro hs
        rw [hsat] at hs
        simp [litHeuristic, hrel, hx, hy, hfi, hsi, hs, hne1, hne2]
      · intro hs
        rw [hsat] at hs
        simp only [litHeuristic, hrel, hx, hy]
        simp [hfi, hsi, hne1, hne2]
        split_ifs <;> linarith
    · have hfx : findColumn n.stacks' x = none := not_not.mp (fun hc => hLx hc)
      have hheldx : n.holding = some x := by
        rcases hlx with h | h
        · exact absurd h hLx
        · exact h
      have hsi : getStackIndex n.stacks' (some x) n.arm = n.arm := getStackIndex_of_none hfx
      have hsneg : jsIndexOf (n.stacks'[n.arm]?.getD []) (some x) = -1 := by
        apply jsIndexOf_eq_neg_one
        intro z hz
        cases hz
        rcases @getD_mem_or n.stacks' n.arm with hm | hm
        · exact fun hmem => (findColumn_none hfx _ (by simpa using hm)) (by
            simpa [hm] using hmem)
        · simp only [List.getD_eq_getElem?_getD] at hm
          rw [hm]
          simp
      have hjfn : ¬ jsEq n.holding (some y) := by
        rintro ⟨-, hh⟩
        rw [hheldx] at hh
        cases hh
        exact hLx hLy
      have hjs : jsEq n.holding (some x) := ⟨by simp, hheldx⟩
      have hns : ¬ LitSatSpec n lit := by
        simp [LitSatSpec, hrel, hx, hy, hfx, hyf]
      constructor
      · intro hs
        exact absurd hs hns
      · intro _
        have hxy : x ≠ y := fun h => hLx (h ▸ hLy)
        by_cases hB : cj < n.arm
        · simp [litHeuristic, jsEq, hrel, hx, hy, hfi, hsi, hne1, hsneg, hheldx, hxy, hB]
        · have hle : (n.arm : Int) ≤ (cj : Int) := by
            exact_mod_cast Nat.le_of_not_lt hB
          simp [litHeuristic, jsEq, hrel, hx, hy, hfi, hsi, hne1, hsneg, hheldx, hxy, hB]
          split_ifs <;> linarith
  · have hfy : findColumn n.stacks' y = none := not_not.mp (fun hc => hLy hc)
    have hheldy : n.holding = some y := by
      rcases hly with h | h
      · exact absurd h hLy
      · exact h
    have hfi : getStackIndex n.stacks' (some y) n.arm = n.arm := getStackIndex_of_none hfy
    have hfneg : jsIndexOf (n.stacks'[n.arm]?.getD []) (some y) = -1 := by
      apply jsIndexOf_eq_neg_one
      intro z hz
      cases hz
      rcases @getD_mem_or n.stacks' n.arm with hm | hm
      · exact fun hmem => (findColumn_none hfy _ (by simpa using hm)) (by
          simpa [hm] using hmem)
      · simp only [List.getD_eq_getElem?_getD] at hm
        rw [hm]
        simp
    have hjf : jsEq n.holding (some y) := ⟨by simp, hheldy⟩
    have hA1' : (0 : Int) ≤ numAbove (n.stacks'[n.arm]?.getD []) (-1) := by
      norm_num [numAbove]
    have hA2 : (0 : Int) ≤ numAbove
        (n.stacks'[getStackIndex n.stacks' (some x) n.arm]?.getD [])
        (jsIndexOf (n.stacks'[getStackIndex n.stacks' (some x) n.arm]?.getD [])
          (some x)) := numAbove_nonneg
    have hns : ¬ LitSatSpec n lit := by
      cases hfc : findColumn n.stacks' x <;>
        simp [LitSatSpec, hrel, hx, hy, hfy, hyf, hfc]
    constructor
    · intro hs
      exact absurd hs hns
    · intro _
      by_cases hB : n.arm < getStackIndex n.stacks' (some x) n.arm
      · simp [litHeuristic, jsEq, hrel, hx, hy, hfi, hfneg, hheldy, hB]
      · have hle : ((getStackIndex n.stacks' (some x) n.arm : Nat) : Int) ≤ (n.arm : Int) := by
          exact_mod_cast Nat.le_of_not_lt hB
        simp [litHeuristic, jsEq, hrel, hx, hy, hfi, hfneg, hheldy, hB]
        split_ifs <;> linarith

/-- **C7** (corrected).  For a single-literal goal formula over one of the
eight relations, with the literal's second argument (when the relation is
not `holding`) naming a located-or-held entity other than the floor — and,
for `beside`, both arguments located — the heuristic of the formula is
defined and equals the per-literal estimate, which is `0` exactly when the
goal test accepts the state and strictly positive when it rejects it.  The
unqualified claim (every relation kind, every state) is refuted by
`C7_counterexample_floor_literal`. -/
theorem C7_heuristic_zero_iff_goal (objects : String → ObjectDefinition)
    (n : PlannerNode) (lit : Literal) (x y : String)
    (hx : lit.args[0]? = some x)
    (hcond :
      lit.relation = "holding" ∨
      (lit.args[1]? = some y ∧ y ≠ "floor" ∧ locOrHeld n x ∧ locOrHeld n y ∧
        ((lit.relation = "leftof" ∨ lit.relation = "rightof" ∨ lit.relation = "inside" ∨
          lit.relation = "ontop" ∨ lit.relation = "above" ∨ lit.relation = "under") ∨
         (lit.relation = "beside" ∧ located n x ∧ located n y)))) :
    heuristics [[lit]] n = some (litHeuristic n lit) ∧
    (goal [[lit]] objects n = true ↔ litHeuristic n lit = 0) ∧
    (goal [[lit]] objects n = false → 0 < litHeuristic n lit) := by
  have key : (LitSatSpec n lit → litHeuristic n lit = 0)
      ∧ (¬ LitSatSpec n lit → 0 < litHeuristic n lit) := by
    rcases hcond with hrel | ⟨hy, hyf, hlx, hly, hrels⟩
    · exact litH_holding objects n lit hrel
    · rcases hrels with (h | h | h | h | h | h) | ⟨h, hLx, hLy⟩
      · exact litH_leftof n lit h hx hy hyf hlx hly
      · exact litH_rightof n lit h hx hy hyf hlx hly
      · exact litH_inside_ontop objects n lit (Or.inl h) hx hy hyf hlx hly
      · exact litH_inside_ontop objects n lit (Or.inr h) hx hy hyf hlx hly
      · exact litH_above n lit h hx hy hyf hlx hly
      · exact litH_under n lit h hx hy hyf hlx hly
      · exact litH_beside objects n lit h hx hy hyf hLx hLy
  have hrelmem : lit.relation ∈ relationNames := by
    rcases hcond with hrel | ⟨-, -, -, -, hrels⟩
    · simp [relationNames, hrel]
    · rcases hrels with (h | h | h | h | h | h) | ⟨h, -, -⟩ <;> simp [relationNames, h]
  have hgeq : goal [[lit]] objects n = checkLit objects n lit := by
    simp [goal]
  have hgoal : goal [[lit]] objects n = true ↔ LitSatSpec n lit := by
    rw [hgeq]
    exact checkLit_iff_litSatSpec objects n lit hrelmem
  refine ⟨?_, ?_, ?_⟩
  · simp [heuristics, conjHeuristic]
  · constructor
    · intro hg
      exact key.1 (hgoal.mp hg)
    · intro h0
      by_contra hng
      have hns : ¬ LitSatSpec n lit := fun hs => hng (hgoal.mpr hs)
      have := key.2 hns
      omega
  · intro hgf
    refine key.2 (fun hs => ?_)
    have := hgoal.mpr hs
    rw [hgf] at this
    cases this

/-- Closed instance of `C7_heuristic_zero_iff_goal`: the single literal
`holding(a)` on a state where nothing is held and `a` sits alone in the
first of two columns. -/
theorem C7_heuristic_zero_iff_goal_witness :
    heuristics [[⟨true, "holding", ["a"]⟩]]
        ⟨[["a"], []], none, 0, none, none⟩
      = some (litHeuristic ⟨[["a"], []], none, 0, none, none⟩ ⟨true, "holding", ["a"]⟩) ∧
    (goal [[⟨true, "holding", ["a"]⟩]] sampleObjects ⟨[["a"], []], none, 0, none, none⟩ = true
      ↔ litHeuristic ⟨[["a"], []], none, 0, none, none⟩ ⟨true, "holding", ["a"]⟩ = 0) ∧
    (goal [[⟨true, "holding", ["a"]⟩]] sampleObjects ⟨[["a"], []], none, 0, none, none⟩ = false
      → 0 < litHeuristic ⟨[["a"], []], none, 0, none, none⟩ ⟨true, "holding", ["a"]⟩) :=
  C7_heuristic_zero_iff_goal sampleObjects ⟨[["a"], []], none, 0, none, none⟩
    ⟨true, "holding", ["a"]⟩ "a" "a" rfl (Or.inl rfl)

/-- Counterexample to C7 as stated: `ontop(a, floor)` on the state with
`a` alone in a single column is satisfied by the goal test, yet the
heuristic of the single-literal formula is `2`, not `0`. -/
theorem C7_counterexample_floor_literal :
    goal [[⟨true, "ontop", ["a", "floor"]⟩]] sampleObjects
        ⟨[["a"]], none, 0, none, none⟩ = true ∧
    heuristics [[⟨true, "ontop", ["a", "floor"]⟩]]
        ⟨[["a"]], none, 0, none, none⟩ = some 2 := by
  constructor
  · decide
  · decide

end Shrdlite
